import Mathlib

/-!
Verification development for the Revolution card-game engine.

The definitions below are shallow embeddings of the TypeScript sources:
`src/lib/game/deck.ts`, `src/lib/game/rules.ts`, `src/lib/game/state.ts`,
`src/lib/game/bot.ts`, the polling transport in
`src/app/api/games/[code]/state/route.ts` and the legacy push transport in
`src/server/socket-handler.ts`.  JavaScript arrays become `List`, `null` and
`undefined` become `Option`, JS `number` becomes `Nat` or `Int` as noted, and
`Array.prototype.sort` (stable) is modelled by `List.insertionSort` (stable).
-/

set_option linter.unusedVariables false

namespace Rev

/-! ## Card model (deck.ts) -/

inductive Suit
  | clubs
  | spades
  | diamonds
  | hearts
deriving DecidableEq, Repr

inductive Rank
  | two
  | three
  | four
  | five
  | six
  | seven
  | eight
  | nine
  | ten
  | jack
  | queen
  | king
  | ace
deriving DecidableEq, Repr

/-- A card; the source's derived string id `"<rank>-<suit>"` is in bijection
with the `(rank, suit)` pair, so id equality is structural equality here. -/
structure Card where
  suit : Suit
  rank : Rank
deriving DecidableEq, Repr

instance : Inhabited Card := ⟨⟨Suit.clubs, Rank.two⟩⟩

/-- deck.ts `SUIT_VALUES`: clubs < spades < diamonds < hearts. -/
def SUIT_VALUES : Suit → Nat
  | .clubs => 0
  | .spades => 1
  | .diamonds => 2
  | .hearts => 3

/-- deck.ts `getCardValue`. -/
def getCardValue (rank : Rank) (twosHigh : Bool) : Nat :=
  if twosHigh && rank == Rank.two then 15
  else
    match rank with
    | .two => 2
    | .three => 3
    | .four => 4
    | .five => 5
    | .six => 6
    | .seven => 7
    | .eight => 8
    | .nine => 9
    | .ten => 10
    | .jack => 11
    | .queen => 12
    | .king => 13
    | .ace => 14

/-- deck.ts `getHighestSuitInSet`: `Math.max` over suit values.  The `0` base
is neutral because every call site passes a non-empty set. -/
def getHighestSuitInSet (cards : List Card) : Nat :=
  (cards.map (fun c => SUIT_VALUES c.suit)).foldr max 0

/-- The consecutiveness loop of `isValidRun`: each value is the previous one
plus 1. -/
def consecCheck : List Nat → Bool
  | [] => true
  | [_] => true
  | a :: b :: t => b == a + 1 && consecCheck (b :: t)

/-- deck.ts `isValidRun`. -/
def isValidRun (cards : List Card) (twosHigh : Bool) : Bool :=
  if cards.length < 3 then false
  else consecCheck ((cards.map (fun c => getCardValue c.rank twosHigh)).insertionSort (· ≤ ·))

/-- deck.ts `getRunHighCard` (the fold over `(highestRank, highestSuit)`). -/
def getRunHighCard (cards : List Card) (twosHigh : Bool) : Nat × Nat :=
  cards.foldl
    (fun (acc : Nat × Nat) card =>
      let rankValue := getCardValue card.rank twosHigh
      if rankValue > acc.1 || (rankValue == acc.1 && SUIT_VALUES card.suit > acc.2) then
        (rankValue, SUIT_VALUES card.suit)
      else acc)
    (0, 0)

/-- First-occurrence deduplication, modelling the key set (in insertion order)
of a JS object built by grouping. -/
def dedupFirst {α : Type} [DecidableEq α] : List α → List α
  | [] => []
  | a :: t => a :: (dedupFirst t).filter (fun x => x ≠ a)

/-- deck.ts `isValidBomb`: exactly 6 cards, exactly 3 ranks with exactly 2
cards each, rank values consecutive. -/
def isValidBomb (cards : List Card) (twosHigh : Bool) : Bool :=
  if cards.length ≠ 6 then false
  else
    let ranks := dedupFirst (cards.map (·.rank))
    if ranks.length ≠ 3 then false
    else if ! ranks.all (fun r => (cards.filter (·.rank == r)).length == 2) then false
    else
      match (ranks.map (fun r => getCardValue r twosHigh)).insertionSort (· ≤ ·) with
      | [v0, v1, v2] => v1 == v0 + 1 && v2 == v1 + 1
      | _ => false

/-- deck.ts `getBombHighRank`: `Math.max` over the six rank values. -/
def getBombHighRank (cards : List Card) (twosHigh : Bool) : Nat :=
  (cards.map (fun c => getCardValue c.rank twosHigh)).foldr max 0

/-- deck.ts `sortHand`: ascending by rank value, then suit value. -/
def sortHand (hand : List Card) (twosHigh : Bool) : List Card :=
  hand.insertionSort (fun a b =>
    getCardValue a.rank twosHigh < getCardValue b.rank twosHigh ∨
      (getCardValue a.rank twosHigh = getCardValue b.rank twosHigh ∧
        SUIT_VALUES a.suit ≤ SUIT_VALUES b.suit))

/-! ## Rules (rules.ts) -/

inductive PlayType
  | single
  | pair
  | triple
  | quad
  | run
  | bomb
deriving DecidableEq, Repr

/-- rules.ts `PlayedCards`: the "last play" record; the optional fields are
only present when the writer cached them. -/
structure PlayedCards where
  playerId : String
  cards : List Card
  rank : Rank
  count : Nat
  playType : Option PlayType := none
  highSuit : Option Nat := none
  runHighCard : Option (Nat × Nat) := none
  bombHighRank : Option Nat := none
deriving DecidableEq, Repr

/-- rules.ts `getPlayType`: bomb first, then same-rank groups, then runs. -/
def getPlayType (cards : List Card) (twosHigh : Bool) : Option PlayType :=
  match cards with
  | [] => none
  | first :: _ =>
    if cards.length == 6 && isValidBomb cards twosHigh then some .bomb
    else if cards.all (fun card => card.rank == first.rank) then
      match cards.length with
      | 1 => some .single
      | 2 => some .pair
      | 3 => some .triple
      | 4 => some .quad
      | _ => none
    else if cards.length ≥ 3 && isValidRun cards twosHigh then some .run
    else none

structure ValidateResult where
  valid : Bool
  error : Option String := none
  playType : Option PlayType := none
deriving DecidableEq, Repr

/-- rules.ts `validatePlay`. -/
def validatePlay (cards : List Card) (lastPlay : Option PlayedCards) (twosHigh : Bool) :
    ValidateResult :=
  if cards.length == 0 then
    { valid := false, error := some "Must play at least one card" }
  else
    match getPlayType cards twosHigh with
    | none =>
      { valid := false
        error := some "Invalid combination. Play same rank cards, a run, or a bomb." }
    | some playType =>
      match lastPlay with
      | none => { valid := true, playType := some playType }
      | some lastPlay =>
        if playType == PlayType.bomb then
          if lastPlay.playType == some PlayType.bomb then
            if getBombHighRank cards twosHigh > lastPlay.bombHighRank.getD 0 then
              { valid := true, playType := some playType }
            else { valid := false, error := some "Must play a higher bomb" }
          else { valid := true, playType := some playType }
        else if lastPlay.playType == some PlayType.bomb then
          { valid := false, error := some "Only a bomb can beat a bomb" }
        else if some playType ≠ lastPlay.playType then
          { valid := false, error := some "Must play a matching type" }
        else if cards.length ≠ lastPlay.count then
          { valid := false, error := some "Must play the required number of cards" }
        else if playType == PlayType.run then
          let myHighCard := getRunHighCard cards twosHigh
          let theirHighCard := lastPlay.runHighCard.getD (0, 0)
          if myHighCard.1 > theirHighCard.1 then { valid := true, playType := some playType }
          else if myHighCard.1 == theirHighCard.1 && myHighCard.2 > theirHighCard.2 then
            { valid := true, playType := some playType }
          else { valid := false, error := some "Must play a higher run" }
        else
          let myRankValue := getCardValue cards.headI.rank twosHigh
          let theirRankValue := getCardValue lastPlay.rank twosHigh
          if myRankValue > theirRankValue then { valid := true, playType := some playType }
          else if myRankValue == theirRankValue &&
              getHighestSuitInSet cards > lastPlay.highSuit.getD 0 then
            { valid := true, playType := some playType }
          else { valid := false, error := some "Must play higher cards" }

/-- rules.ts `getPoints`: the table-size scoring vectors. -/
def getPoints (playerCount : Nat) : List Int :=
  match playerCount with
  | 4 => [4, 3, 2, 0]
  | 5 => [5, 4, 3, 2, 0]
  | 6 => [6, 5, 4, 3, 2, 0]
  | _ => [4, 3, 2, 0]

inductive PlayerRank
  | KING
  | QUEEN
  | NOBLE
  | PEASANT
deriving DecidableEq, Repr

/-- rules.ts `getRank`; `position` is an `Int` because callers pass the raw
result of `Array.prototype.indexOf`, which can be `-1`. -/
def getRank (position : Int) (playerCount : Nat) : PlayerRank :=
  if position = 0 then .KING
  else if position = 1 then .QUEEN
  else if position = 2 ∧ playerCount > 4 then .NOBLE
  else if position = 2 ∧ playerCount = 4 then .PEASANT
  else .PEASANT

/-! ## Game state machine (state.ts, the legacy engine) -/

structure PlayerState where
  id : String
  odlerId : String
  name : String
  odltPosition : Nat
  hand : List Card
  totalScore : Int
  currentRank : Option PlayerRank
  isFinished : Bool
  finishPosition : Option Nat
deriving DecidableEq, Repr

instance : Inhabited PlayerState :=
  ⟨{ id := "", odlerId := "", name := "", odltPosition := 0, hand := [], totalScore := 0,
     currentRank := none, isFinished := false, finishPosition := none }⟩

inductive GameStatus
  | LOBBY
  | TRADING
  | PLAYING
  | ROUND_END
  | GAME_OVER
deriving DecidableEq, Repr

structure GameSettings where
  playerCount : Nat
  twosHigh : Bool
  tradingEnabled : Bool
  winScore : Int
deriving DecidableEq, Repr

inductive TradePhase
  | peasants_give
  | royals_give
  | complete
deriving DecidableEq, Repr

structure PendingTrade where
  fromPlayer : String
  toPlayer : String
  cards : List Card
  count : Nat
deriving DecidableEq, Repr

structure TradingState where
  phase : TradePhase
  pendingTrades : List PendingTrade
  completedTrades : List String
deriving DecidableEq, Repr

structure GameState where
  gameId : String
  code : String
  status : GameStatus
  settings : GameSettings
  currentRound : Nat
  players : List PlayerState
  currentPlayerId : Option String
  lastPlay : Option PlayedCards
  passCount : Nat
  finishOrder : List String
  tradingState : Option TradingState
deriving DecidableEq, Repr

/-- JS `Array.prototype.indexOf` on a string array: `-1` when absent. -/
def jsIndexOf (l : List String) (x : String) : Int :=
  match l.findIdx? (· == x) with
  | some i => (i : Int)
  | none => -1

/-- JS `players.findIndex(p => p.id === target)` where `target` may be `null`
(`=== null` is false for every id, giving `-1`). -/
def jsFindIndexById (players : List PlayerState) (target : Option String) : Int :=
  match target with
  | none => -1
  | some t =>
    match players.findIdx? (·.id == t) with
    | some i => (i : Int)
    | none => -1

/-- The `while (players[nextIndex].isFinished && attempts < playerCount)` loop
of state.ts `getNextPlayer`, with `fuel` counting the remaining attempts.
An out-of-range index faults in the source; it is unreachable when
`playerCount = players.length`, and modelled as "stop here". -/
def nextPlayerScan (players : List PlayerState) (playerCount : Nat) :
    Nat → Nat → Nat
  | nextIndex, 0 => nextIndex
  | nextIndex, fuel + 1 =>
    match players.get? nextIndex with
    | some p =>
      if p.isFinished then
        nextPlayerScan players playerCount ((nextIndex + 1) % playerCount) fuel
      else nextIndex
    | none => nextIndex

/-- state.ts `getNextPlayer`: first non-finished seat scanning seat indices
cyclically from `currentIndex + 1` (at most `playerCount` attempts). -/
def getNextPlayer (players : List PlayerState) (currentIndex : Int) (playerCount : Nat) :
    String :=
  let start := ((currentIndex + 1) % (playerCount : Int)).toNat
  let idx := nextPlayerScan players playerCount start playerCount
  ((players.get? idx).map (·.id)).getD ""

/-- rules.ts `getPoints` applied in state.ts `endRound`. -/
def endRound (gameState : GameState) : GameState :=
  let points := getPoints gameState.settings.playerCount
  let newPlayers := gameState.players.map (fun player =>
    let finishPos := jsIndexOf gameState.finishOrder player.id
    -- source: `points[finishPos]`; the index is below the vector length in
    -- every reachable state, out-of-range reads are undefined in JS
    let earnedPoints : Int := if finishPos ≥ 0 then points.getD finishPos.toNat 0 else 0
    let rank := getRank finishPos gameState.settings.playerCount
    { player with totalScore := player.totalScore + earnedPoints, currentRank := some rank })
  let winner := newPlayers.find? (fun p => decide (p.totalScore ≥ gameState.settings.winScore))
  { gameState with
    status := if winner.isSome then .GAME_OVER else .ROUND_END
    players := newPlayers
    currentPlayerId := none }

/-- The tail of state.ts `playCards` shared by both non-round-ending paths:
set the hand-updated players, advance the turn, record the bare last play. -/
def afterPlay (gameState : GameState) (playerId : String) (cards : List Card)
    (newPlayers : List PlayerState) (playerIndex : Nat) (finishOrder : List String) :
    GameState :=
  { gameState with
    players := newPlayers
    currentPlayerId :=
      some (getNextPlayer newPlayers (playerIndex : Int) gameState.settings.playerCount)
    lastPlay := some
      { playerId := playerId, cards := cards, rank := cards.headI.rank, count := cards.length }
    passCount := 0
    finishOrder := finishOrder }

/-- state.ts `playCards`. -/
def playCards (gameState : GameState) (playerId : String) (cards : List Card) : GameState :=
  match gameState.players.findIdx? (·.id == playerId) with
  | none => gameState
  | some playerIndex =>
    match gameState.players.get? playerIndex with
    | none => gameState
    | some player =>
      let newHand := player.hand.filter (fun card => ! cards.any (fun c => c == card))
      let newPlayers := gameState.players.set playerIndex { player with hand := newHand }
      if newHand.length == 0 then
        let newPlayers := newPlayers.set playerIndex
          { player with
            hand := newHand
            isFinished := true
            finishPosition := some gameState.finishOrder.length }
        let finishOrder := gameState.finishOrder ++ [playerId]
        let activePlayers := newPlayers.filter (fun p => !p.isFinished)
        if activePlayers.length ≤ 1 then
          match activePlayers with
          | [lastPlayer] =>
            match newPlayers.findIdx? (·.id == lastPlayer.id) with
            | some lastPlayerIdx =>
              match newPlayers.get? lastPlayerIdx with
              | some lp =>
                let newPlayers2 := newPlayers.set lastPlayerIdx
                  { lp with isFinished := true, finishPosition := some finishOrder.length }
                endRound { gameState with
                  players := newPlayers2, finishOrder := finishOrder ++ [lastPlayer.id] }
              | none =>
                endRound { gameState with players := newPlayers, finishOrder := finishOrder }
            | none =>
              endRound { gameState with players := newPlayers, finishOrder := finishOrder }
          | _ => endRound { gameState with players := newPlayers, finishOrder := finishOrder }
        else afterPlay gameState playerId cards newPlayers playerIndex finishOrder
      else afterPlay gameState playerId cards newPlayers playerIndex gameState.finishOrder

/-- state.ts `passPlay`. -/
def passPlay (gameState : GameState) (playerId : String) : GameState :=
  match gameState.players.findIdx? (·.id == playerId) with
  | none => gameState
  | some playerIndex =>
    let activePlayers := gameState.players.filter (fun p => !p.isFinished)
    let newPassCount := gameState.passCount + 1
    if newPassCount ≥ activePlayers.length - 1 then
      let currentPlayerIndex := jsFindIndexById gameState.players gameState.currentPlayerId
      let nextPlayerId :=
        getNextPlayer gameState.players currentPlayerIndex gameState.settings.playerCount
      { gameState with currentPlayerId := some nextPlayerId, lastPlay := none, passCount := 0 }
    else
      let nextPlayerId :=
        getNextPlayer gameState.players (playerIndex : Int) gameState.settings.playerCount
      { gameState with currentPlayerId := some nextPlayerId, passCount := newPassCount }

/-- state.ts `startTrading`. -/
def startTrading (gameState : GameState) : GameState :=
  if !gameState.settings.tradingEnabled then gameState
  else
    { gameState with
      status := .TRADING
      tradingState := some
        { phase := .peasants_give, pendingTrades := [], completedTrades := [] } }

/-- state.ts `completeTrade`: move the cards, re-sort the receiving hand,
append the `"from-to"` pair string unconditionally. -/
def completeTrade (gameState : GameState) (fromPlayerId toPlayerId : String)
    (cards : List Card) : GameState :=
  match gameState.tradingState with
  | none => gameState
  | some ts =>
    match gameState.players.findIdx? (·.id == fromPlayerId),
        gameState.players.findIdx? (·.id == toPlayerId) with
    | some fromIndex, some toIndex =>
      let players1 :=
        match gameState.players.get? fromIndex with
        | some fp =>
          gameState.players.set fromIndex
            { fp with hand := fp.hand.filter (fun c => ! cards.any (fun tc => tc == c)) }
        | none => gameState.players
      let players2 :=
        match players1.get? toIndex with
        | some tp =>
          players1.set toIndex
            { tp with hand := sortHand (tp.hand ++ cards) gameState.settings.twosHigh }
        | none => players1
      let tradingState :=
        { ts with completedTrades :=
            ts.completedTrades ++ [fromPlayerId ++ "-" ++ toPlayerId] }
      { gameState with players := players2, tradingState := some tradingState }
    | _, _ => gameState

/-! ## Polling transport engine (src/app/api/games/[code]/state/route.ts)

These are the standalone helpers of the polling route; the route keeps an
extra `turnOrder : string[]` on its state blob, passed here explicitly. -/

namespace Route

/-- Whether the player found by id in `players` is present and not finished
(`players.find(...)` followed by `!p.isFinished`). -/
def isActiveId (players : List PlayerState) (id : String) : Bool :=
  match players.find? (·.id == id) with
  | some p => !p.isFinished
  | none => false

/-- The scan loop of route.ts `getNextPlayer`: walk `turnOrder` cyclically,
return the first id whose player exists and is not finished. -/
def gnpScan (players : List PlayerState) (turnOrder : List String) :
    Nat → Nat → Option String
  | _, 0 => none
  | nextIndex, fuel + 1 =>
    let nextPlayerId := turnOrder.getD nextIndex ""
    if isActiveId players nextPlayerId then some nextPlayerId
    else gnpScan players turnOrder ((nextIndex + 1) % turnOrder.length) fuel

/-- route.ts `getNextPlayer(players, currentPlayerId, turnOrder)`. -/
def getNextPlayer (players : List PlayerState) (currentPlayerId : String)
    (turnOrder : List String) : String :=
  let playerCount := turnOrder.length
  let currentIndex := jsIndexOf turnOrder currentPlayerId
  let start := ((currentIndex + 1) % (playerCount : Int)).toNat
  match gnpScan players turnOrder start playerCount with
  | some id => id
  | none => turnOrder.getD 0 ""

/-- The scan loop of route.ts `getNextValidPlayer`: additionally requires
`hand.length >= requiredCards`, accumulating auto-skipped players. -/
def gnvScan (players : List PlayerState) (turnOrder : List String) (required : Nat) :
    Nat → Nat → List PlayerState → Option String × List PlayerState
  | _, 0, skipped => (none, skipped)
  | nextIndex, fuel + 1, skipped =>
    let nextPlayerId := turnOrder.getD nextIndex ""
    match players.find? (·.id == nextPlayerId) with
    | some p =>
      if !p.isFinished then
        if p.hand.length ≥ required then (some nextPlayerId, skipped)
        else gnvScan players turnOrder required ((nextIndex + 1) % turnOrder.length) fuel
          (skipped ++ [p])
      else gnvScan players turnOrder required ((nextIndex + 1) % turnOrder.length) fuel skipped
    | none => gnvScan players turnOrder required ((nextIndex + 1) % turnOrder.length) fuel skipped

/-- route.ts `getNextValidPlayer`: next seat with enough cards, else the
just-played seat if still active, else the first active seat. -/
def getNextValidPlayer (players : List PlayerState) (currentPlayerId : String)
    (turnOrder : List String) (requiredCards : Nat) : String × List PlayerState :=
  let playerCount := turnOrder.length
  let currentIndex := jsIndexOf turnOrder currentPlayerId
  let start := ((currentIndex + 1) % (playerCount : Int)).toNat
  match gnvScan players turnOrder requiredCards start playerCount [] with
  | (some id, skipped) => (id, skipped)
  | (none, skipped) =>
    match players.find? (·.id == currentPlayerId) with
    | some cp =>
      if !cp.isFinished then (currentPlayerId, skipped)
      else
        (((players.filter (fun p => !p.isFinished)).head?.map (·.id)).getD
          (turnOrder.getD 0 ""), skipped)
    | none =>
      (((players.filter (fun p => !p.isFinished)).head?.map (·.id)).getD
        (turnOrder.getD 0 ""), skipped)

/-- The turn-advance block of the route's `play` action (after a play that did
not end the round): `getNextValidPlayer` plus the everyone-was-skipped
override that clears the pile and lets the player lead again.  Returns the new
`currentPlayerId`, whether `lastPlay` was cleared, and the skipped seats. -/
def advanceAfterPlay (players : List PlayerState) (myPlayerId : String)
    (turnOrder : List String) (requiredCards : Nat) : String × Bool × List PlayerState :=
  let (nextPlayerId, skipped) := getNextValidPlayer players myPlayerId turnOrder requiredCards
  if skipped.length > 0 then
    let activePlayers := players.filter (fun p => !p.isFinished)
    let nonSkippedActive := activePlayers.filter
      (fun p => p.id == myPlayerId || ! skipped.any (fun s => s.id == p.id))
    let myNotFinished :=
      ((players.find? (·.id == myPlayerId)).map (fun p => !p.isFinished)).getD false
    match nonSkippedActive with
    | [p] =>
      if p.id == myPlayerId && myNotFinished then (myPlayerId, true, skipped)
      else (nextPlayerId, false, skipped)
    | _ => (nextPlayerId, false, skipped)
  else (nextPlayerId, false, skipped)

/-- The cached last-play record written by the route's `play` action (route.ts
POST, `state.lastPlay = {...}`), given the Validator-confirmed `playType`. -/
def makeLastPlay (playerId : String) (cards : List Card) (playType : PlayType)
    (twosHigh : Bool) : PlayedCards :=
  { playerId := playerId
    cards := cards
    rank := cards.headI.rank
    count := cards.length
    playType := some playType
    highSuit :=
      if playType ≠ PlayType.run ∧ playType ≠ PlayType.bomb then
        some (getHighestSuitInSet cards)
      else none
    runHighCard :=
      if playType = PlayType.run then some (getRunHighCard cards twosHigh) else none
    bombHighRank :=
      if playType = PlayType.bomb then some (getBombHighRank cards twosHigh) else none }

/-- Round-1 initialisation (older polling route, GET): `turnOrder` is the ids
of the players in seat order (`players.map(p => p.id)`). -/
def round1TurnOrder (players : List PlayerState) : List String :=
  players.map (·.id)

/-- The `next-round` action's turn setup: the previous finish order becomes
the turn order and its first entry (the round winner) leads, falling back to
the first seat if that id is missing.  Returns `(currentPlayerId, turnOrder)`. -/
def nextRoundTurnSetup (players : List PlayerState) (prevFinishOrder : List String) :
    Option String × List String :=
  let kingId := prevFinishOrder.getD 0 "undefined"
  let startingPlayer :=
    match players.find? (·.id == kingId) with
    | some p => some p
    | none => players.head?
  (startingPlayer.map (·.id), prevFinishOrder)

end Route

/-! ## Legacy push transport (src/server/socket-handler.ts): trading -/

namespace SH

/-- socket-handler.ts `getPendingTrades`: the givers whose required
`"giver-receiver"` pair string is not yet recorded for the current phase.
A JS read past the end of `finishOrder` interpolates as `"undefined"`. -/
def getPendingTrades (state : GameState) : List String :=
  match state.tradingState with
  | none => []
  | some ts =>
    let playerCount := state.settings.playerCount
    let lastPeasant := state.finishOrder.getD (playerCount - 1) "undefined"
    let secondLast := state.finishOrder.getD (playerCount - 2) "undefined"
    let king := state.finishOrder.getD 0 "undefined"
    let queen := state.finishOrder.getD 1 "undefined"
    if ts.phase == TradePhase.peasants_give then
      (if ! ts.completedTrades.contains (lastPeasant ++ "-" ++ king) then [lastPeasant] else [])
        ++
        (if ! ts.completedTrades.contains (secondLast ++ "-" ++ queen) then [secondLast] else [])
    else if ts.phase == TradePhase.royals_give then
      (if ! ts.completedTrades.contains (king ++ "-" ++ lastPeasant) then [king] else [])
        ++
        (if ! ts.completedTrades.contains (queen ++ "-" ++ secondLast) then [queen] else [])
    else []

/-- The guard-and-trade part of the `select-trade-cards` handler: identify the
acting player by account id, derive the trade target and expected card count
from the finish position and phase, and apply `completeTrade`; `none` when the
handler rejects without mutating. -/
def tradeAttempt (state : GameState) (userId : String) (cards : List Card) :
    Option GameState :=
  if state.status ≠ GameStatus.TRADING then none
  else
    match state.tradingState with
    | none => none
    | some ts =>
      match state.players.find? (·.odlerId == userId) with
      | none => none
      | some player =>
        let finishPos := jsIndexOf state.finishOrder player.id
        let playerCount := state.settings.playerCount
        let target : Option (String × Nat) :=
          if ts.phase = TradePhase.peasants_give then
            if finishPos = (playerCount : Int) - 1 then
              (state.finishOrder.get? 0).map (fun t => (t, 2))
            else if finishPos = (playerCount : Int) - 2 then
              (state.finishOrder.get? 1).map (fun t => (t, 1))
            else none
          else if ts.phase = TradePhase.royals_give then
            if finishPos = 0 then
              (state.finishOrder.get? (playerCount - 1)).map (fun t => (t, 2))
            else if finishPos = 1 then
              (state.finishOrder.get? (playerCount - 2)).map (fun t => (t, 1))
            else none
          else none
        match target with
        | none => none
        | some (targetPlayerId, expectedCount) =>
          if cards.length ≠ expectedCount then none
          else some (completeTrade state player.id targetPlayerId cards)

/-- socket-handler.ts `select-trade-cards`: perform the trade, then advance
the phase when no trades remain pending (`peasants_give -> royals_give` with
the recorded trades reset, or conclude trading into `PLAYING`). -/
def selectTradeStep (state : GameState) (userId : String) (cards : List Card) : GameState :=
  match tradeAttempt state userId cards with
  | none => state
  | some newState =>
    if (getPendingTrades newState).length == 0 then
      match newState.tradingState with
      | some ts' =>
        if ts'.phase = TradePhase.peasants_give then
          let ts2 := { ts' with phase := TradePhase.royals_give, completedTrades := ([] : List String) }
          { newState with tradingState := some ts2 }
        else { newState with status := GameStatus.PLAYING, tradingState := none }
      | none => newState
    else newState

end SH

/-! ## Bot decision engine (src/lib/game/bot.ts) -/

namespace Bot

structure Opponent where
  id : String
  cardCount : Nat
  isFinished : Bool
deriving DecidableEq, Repr

structure BotGameState where
  hand : List Card
  lastPlay : Option PlayedCards
  twosHigh : Bool
  playedCards : List Card
  opponents : List Opponent
  isLeading : Bool
deriving Repr

structure HandAnalysis where
  singles : List (List Card)
  pairs : List (List Card)
  triples : List (List Card)
  quads : List (List Card)
  runs : List (List Card)
  bombs : List (List Card)
  highCards : List Card
deriving Repr

/-- The `byRank` grouping of `analyzeHand`: one group per rank in
first-occurrence order, each group sorted ascending by suit value. -/
def byRankGroups (hand : List Card) : List (List Card) :=
  (dedupFirst (hand.map (·.rank))).map (fun r =>
    (hand.filter (·.rank == r)).insertionSort
      (fun a b => SUIT_VALUES a.suit ≤ SUIT_VALUES b.suit))

/-- The `sortByRank` comparator of `analyzeHand` (ascending by the rank value
of the first card). -/
def sortPlaysByRank (twosHigh : Bool) (plays : List (List Card)) : List (List Card) :=
  plays.insertionSort (fun a b =>
    getCardValue a.headI.rank twosHigh ≤ getCardValue b.headI.rank twosHigh)

/-- The same-rank combination lists of `analyzeHand`: for every rank group of
size at least `n`, the first `n` cards, sorted ascending by rank value.
`n = 1, 2, 3, 4` give `singles`, `pairs`, `triples`, `quads`. -/
def sameRankPlays (hand : List Card) (twosHigh : Bool) (n : Nat) : List (List Card) :=
  sortPlaysByRank twosHigh
    ((byRankGroups hand).filterMap (fun g => if g.length ≥ n then some (g.take n) else none))

/-- The distinct card values of the hand in ascending order (`byValue` keys of
`findAllRuns`; JS numeric object keys iterate ascending, and the code sorts
them ascending again). -/
def valuesIn (hand : List Card) (twosHigh : Bool) : List Nat :=
  (dedupFirst (hand.map (fun c => getCardValue c.rank twosHigh))).insertionSort (· ≤ ·)

/-- The cards of one value, sorted ascending by suit (`byValue[v]` after the
per-group suit sort of `findAllRuns`). -/
def valueGroup (hand : List Card) (twosHigh : Bool) (v : Nat) : List Card :=
  (hand.filter (fun c => getCardValue c.rank twosHigh == v)).insertionSort
    (fun a b => SUIT_VALUES a.suit ≤ SUIT_VALUES b.suit)

/-- The consecutiveness test of `findAllRuns`:
`values[startIdx + i] == values[startIdx] + i` for every `i` below `len`. -/
def consecAt (values : List Nat) (s len : Nat) : Bool :=
  (List.range len).all (fun i => values.getD (s + i) 0 == values.getD s 0 + i)

/-- Build the run of `findAllRuns`: the lowest-suit card of each of the `len`
consecutive values starting at index `s`. -/
def buildRun (hand : List Card) (twosHigh : Bool) (values : List Nat) (s len : Nat) :
    List Card :=
  (List.range len).map (fun i => (valueGroup hand twosHigh (values.getD (s + i) 0)).headI)

/-- bot.ts `findAllRuns`: every consecutive-value segment of length at least 3,
as a run of lowest-suit representatives, sorted ascending by high-card rank. -/
def findAllRuns (hand : List Card) (twosHigh : Bool) : List (List Card) :=
  let values := valuesIn hand twosHigh
  let runs := (List.range values.length).flatMap (fun s =>
    (List.range' 3 (values.length - s - 2)).filterMap (fun len =>
      if consecAt values s len then some (buildRun hand twosHigh values s len) else none))
  runs.insertionSort (fun a b => (getRunHighCard a twosHigh).1 ≤ (getRunHighCard b twosHigh).1)

structure BombPair where
  rank : Rank
  value : Nat
  cards : List Card
deriving DecidableEq, Repr

/-- The `ranksWithPairs` list of `findAllBombs`: ranks with at least two
cards, keeping the first two cards, sorted ascending by value. -/
def ranksWithPairs (hand : List Card) (twosHigh : Bool) : List BombPair :=
  ((dedupFirst (hand.map (·.rank))).filterMap (fun r =>
    let cards := hand.filter (·.rank == r)
    if cards.length ≥ 2 then some ⟨r, getCardValue r twosHigh, cards.take 2⟩ else none)
  ).insertionSort (fun a b => a.value ≤ b.value)

/-- bot.ts `findAllBombs`: three consecutive-value pairs, six cards. -/
def findAllBombs (hand : List Card) (twosHigh : Bool) : List (List Card) :=
  let rp := ranksWithPairs hand twosHigh
  (List.range (rp.length - 2)).filterMap (fun i =>
    match rp.drop i with
    | a :: b :: c :: _ =>
      if b.value == a.value + 1 && c.value == b.value + 1 then
        some (a.cards ++ b.cards ++ c.cards)
      else none
    | _ => none)

/-- bot.ts `analyzeHand`. -/
def analyzeHand (hand : List Card) (twosHigh : Bool) : HandAnalysis :=
  { singles := sameRankPlays hand twosHigh 1
    pairs := sameRankPlays hand twosHigh 2
    triples := sameRankPlays hand twosHigh 3
    quads := sameRankPlays hand twosHigh 4
    runs := findAllRuns hand twosHigh
    bombs := findAllBombs hand twosHigh
    highCards := hand.filter (fun c =>
      decide (getCardValue c.rank twosHigh ≥ 14) || (twosHigh && c.rank == Rank.two)) }

/-- The `rankCounts` record of `selectLeadPlay`: cards of each rank. -/
def rankCount (hand : List Card) (r : Rank) : Nat :=
  (hand.filter (·.rank == r)).length

/-- The `runRanks` set of `selectLeadPlay`: ranks occurring in some run. -/
def runRanksHas (runs : List (List Card)) (r : Rank) : Bool :=
  runs.any (fun run => run.any (·.rank == r))

/-- bot.ts `planExitPlay`. -/
def planExitPlay (hand : List Card) (analysis : HandAnalysis) (twosHigh : Bool) :
    List Card :=
  if analysis.bombs.length > 0 ∧ hand.length = 6 then analysis.bombs.headI
  else if analysis.quads.length > 0 ∧ hand.length = 4 then analysis.quads.headI
  else if analysis.triples.length > 0 ∧ hand.length = 3 then analysis.triples.headI
  else if analysis.pairs.length > 0 ∧ hand.length = 2 then analysis.pairs.headI
  else if hand.length = 1 then hand
  else if hand.length = 3 ∧ analysis.pairs.length > 0 then
    let pairCards := analysis.pairs.headI
    match hand.find? (fun c => ! pairCards.contains c) with
    | some single =>
      if getCardValue single.rank twosHigh ≥ getCardValue pairCards.headI.rank twosHigh then
        [single]
      else pairCards
    | none => pairCards
  else
    [(hand.insertionSort (fun a b =>
        getCardValue b.rank twosHigh ≤ getCardValue a.rank twosHigh)).headI]

/-- The aggressive branch of `selectLeadPlay`: highest quad, else highest
triple, else highest run, else highest pair, else highest single.  With an
empty hand the source fallback builds `[undefined]`; modelled as `[]`
(unreachable, callers pass a non-empty hand). -/
def aggressiveLead (hand : List Card) (analysis : HandAnalysis) : List Card :=
  match analysis.quads.getLast? with
  | some q => q
  | none =>
    match analysis.triples.getLast? with
    | some t => t
    | none =>
      match analysis.runs.getLast? with
      | some r => r
      | none =>
        match analysis.pairs.getLast? with
        | some p => p
        | none =>
          match analysis.singles.getLast? with
          | some s => s
          | none =>
            match hand.getLast? with
            | some c => [c]
            | none => []

/-- bot.ts `selectLeadPlay`. -/
def selectLeadPlay (hand : List Card) (analysis : HandAnalysis) (twosHigh : Bool)
    (opponentDangerous : Bool) : List Card :=
  if hand.length ≤ 4 then planExitPlay hand analysis twosHigh
  else if opponentDangerous then aggressiveLead hand analysis
  else
    match analysis.singles.find? (fun single =>
        rankCount hand single.headI.rank == 1 &&
          ! runRanksHas analysis.runs single.headI.rank) with
    | some single => single
    | none =>
      match analysis.pairs.find? (fun pair =>
          rankCount hand pair.headI.rank == 2 &&
            ! runRanksHas analysis.runs pair.headI.rank) with
      | some pair => pair
      | none =>
        if analysis.runs.length > 0 then
          let shortestLength := ((analysis.runs.map (·.length)).min?).getD 0
          (analysis.runs.filter (fun r => r.length == shortestLength)).headI
        else
          match analysis.triples.find? (fun triple =>
              rankCount hand triple.headI.rank == 3) with
          | some triple => triple
          | none =>
            if analysis.quads.length > 0 then analysis.quads.headI
            else
              match analysis.singles.head? with
              | some s => s
              | none =>
                match hand.head? with
                | some c => [c]
                | none => []

/-- bot.ts `selectFollowPlay`. -/
def selectFollowPlay (hand : List Card) (lastPlay : PlayedCards)
    (analysis : HandAnalysis) (twosHigh : Bool) (opponentDangerous : Bool) :
    Option (List Card) :=
  if lastPlay.playType == some PlayType.bomb then
    let validBombs := analysis.bombs.filter (fun b =>
      getBombHighRank b twosHigh > lastPlay.bombHighRank.getD 0)
    validBombs.head?
  else
    let candidates :=
      match lastPlay.playType with
      | some .single => analysis.singles
      | some .pair => analysis.pairs
      | some .triple => analysis.triples
      | some .quad => analysis.quads
      | some .run => analysis.runs.filter (fun r => r.length == lastPlay.count)
      | _ => []
    let validPlays := candidates.filter (fun cards =>
      (validatePlay cards (some lastPlay) twosHigh).valid)
    if validPlays.length > 0 then
      if opponentDangerous ∧ validPlays.length > 1 then
        some (validPlays.getD (validPlays.length / 2) [])
      else validPlays.head?
    else if analysis.bombs.length > 0 then
      if opponentDangerous ∨ hand.length ≤ 6 ∨ analysis.bombs.length ≥ 2 then
        analysis.bombs.head?
      else none
    else none

/-- bot.ts `getBotPlay`.  The source dereferences `lastPlay!` in the follow
branch; a null `lastPlay` with `isLeading` false faults in JS (callers always
pass `isLeading = !lastPlay`), modelled as a pass. -/
def getBotPlay (state : BotGameState) : Option (List Card) :=
  let analysis := analyzeHand state.hand state.twosHigh
  let dangerousOpponent := state.opponents.find? (fun o =>
    !o.isFinished && decide (o.cardCount ≤ 2))
  if state.isLeading then
    some (selectLeadPlay state.hand analysis state.twosHigh dangerousOpponent.isSome)
  else
    match state.lastPlay with
    | some lastPlay =>
      selectFollowPlay state.hand lastPlay analysis state.twosHigh dangerousOpponent.isSome
    | none => none

end Bot

/-! ## Concrete fixtures used by witnesses and counterexamples -/

namespace Fix

/-- Shorthand card builder. -/
def c (r : Rank) (s : Suit) : Card := ⟨s, r⟩

/-- Shorthand player builder. -/
def mkP (id : String) (hand : List Card) (fin : Bool) : PlayerState :=
  { id := id, odlerId := "u" ++ id, name := id, odltPosition := 0, hand := hand,
    totalScore := 0, currentRank := none, isFinished := fin, finishPosition := none }

def settings4 : GameSettings :=
  { playerCount := 4, twosHigh := false, tradingEnabled := true, winScore := 50 }

/-- A 7-high bomb. -/
def bomb7 : List Card :=
  [c .five .clubs, c .five .diamonds, c .six .clubs, c .six .diamonds,
   c .seven .clubs, c .seven .diamonds]

/-- A cached single-Ace last play. -/
def lpAce : PlayedCards :=
  { playerId := "x", cards := [c .ace .hearts], rank := .ace, count := 1,
    playType := some .single, highSuit := some 3 }

/-- A cached single-5 (spades) last play. -/
def lpFive : PlayedCards :=
  { playerId := "x", cards := [c .five .spades], rank := .five, count := 1,
    playType := some .single, highSuit := some 1 }

/-- An 8-high cached bomb last play. -/
def lpBomb8 : PlayedCards :=
  { playerId := "x",
    cards := [c .six .spades, c .six .hearts, c .seven .spades, c .seven .hearts,
      c .eight .spades, c .eight .hearts],
    rank := .six, count := 6, playType := some .bomb, bombHighRank := some 8 }

/-- C2 counterexample table: seat a has finished; seats b and c each hold a
single card while the table requires 2. -/
def c2players : List PlayerState :=
  [mkP "a" [] true, mkP "b" [c .three .clubs] false, mkP "c" [c .four .clubs] false]

/-- C6 counterexample state: the trick leader L went out on a single Ace,
seats a1 a2 a3 remain, a1 to act. -/
def c6state : GameState :=
  { gameId := "g", code := "ROOM", status := .PLAYING, settings := settings4,
    currentRound := 1,
    players := [mkP "L" [] true, mkP "a1" [c .nine .clubs] false,
      mkP "a2" [c .ten .clubs] false, mkP "a3" [c .jack .clubs] false],
    currentPlayerId := some "a1",
    lastPlay := some { playerId := "L", cards := [c .ace .hearts], rank := .ace, count := 1 },
    passCount := 0, finishOrder := ["L"], tradingState := none }

/-- C3 counterexample state: a fresh 4-seat trick with seat A to lead. -/
def c3state : GameState :=
  { gameId := "g", code := "ROOM", status := .PLAYING, settings := settings4,
    currentRound := 1,
    players := [mkP "A" [c .five .clubs, c .nine .clubs] false, mkP "B" [c .six .clubs] false,
      mkP "C" [c .seven .clubs] false, mkP "D" [c .eight .clubs] false],
    currentPlayerId := some "A", lastPlay := none, passCount := 0, finishOrder := [],
    tradingState := none }

/-- C9 counterexample state: trading after a finished round, phase
`peasants_give`, nothing recorded yet. -/
def c9state : GameState :=
  { gameId := "g", code := "ROOM", status := .TRADING, settings := settings4,
    currentRound := 2,
    players := [mkP "p1" [c .ace .hearts, c .king .hearts, c .nine .clubs] false,
      mkP "p2" [c .queen .hearts] false,
      mkP "p3" [c .three .clubs, c .four .clubs] false,
      mkP "p4" [c .three .spades, c .four .spades, c .five .spades] false],
    currentPlayerId := none, lastPlay := none, passCount := 0,
    finishOrder := ["p1", "p2", "p3", "p4"],
    tradingState := some { phase := .peasants_give, pendingTrades := [], completedTrades := [] } }

/-- C8 witness state: every seat finished, scores about to be assigned. -/
def c8state : GameState :=
  { gameId := "g", code := "ROOM", status := .PLAYING, settings := settings4,
    currentRound := 1,
    players := [mkP "A" [] true, mkP "B" [] true, mkP "C" [] true, mkP "D" [] true],
    currentPlayerId := none, lastPlay := none, passCount := 0,
    finishOrder := ["A", "B", "C", "D"], tradingState := none }

/-- C1 witness bot state: leading with a lone 3 of clubs. -/
def c1bot : Bot.BotGameState :=
  { hand := [c .three .clubs], lastPlay := none, twosHigh := false,
    playedCards := [], opponents := [], isLeading := true }

end Fix

/-! # Theorems -/

/-! ## Generic helper lemmas -/

theorem getPlayType_ne_nil {cards : List Card} {tw : Bool} {t : PlayType}
    (h : getPlayType cards tw = some t) : cards ≠ [] := by
  intro he
  subst he
  simp [getPlayType] at h

theorem findIdx?_eq_none_of_forall {α : Type} {p : α → Bool} {l : List α}
    (h : ∀ x ∈ l, p x = false) : l.findIdx? p = none := by
  apply List.findIdx?_eq_none_iff.mpr
  intro x hx
  simp [h x hx]

/-! ## Claim C4: bomb rules of the Validator -/

/-- Claim C4: validatePlay accepts any valid 6-card bomb played on any
non-bomb lastPlay regardless of the lastPlay's rank; against a prior bomb it
accepts exactly when the candidate's bombHighRank is strictly greater (equal
or lower is rejected); and every non-bomb candidate is rejected when the
lastPlay is a bomb. -/
theorem C4_bomb_rules (cards : List Card) (lp : PlayedCards) (tw : Bool) :
    (getPlayType cards tw = some PlayType.bomb → lp.playType ≠ some PlayType.bomb →
      (validatePlay cards (some lp) tw).valid = true) ∧
    (getPlayType cards tw = some PlayType.bomb → lp.playType = some PlayType.bomb →
      ((validatePlay cards (some lp) tw).valid = true ↔
        lp.bombHighRank.getD 0 < getBombHighRank cards tw)) ∧
    (getPlayType cards tw ≠ some PlayType.bomb → lp.playType = some PlayType.bomb →
      (validatePlay cards (some lp) tw).valid = false) := by
  refine ⟨?_, ?_, ?_⟩
  · intro hb hlp
    have hne : cards ≠ [] := getPlayType_ne_nil hb
    simp [validatePlay, hb, hne, hlp]
  · intro hb hlp
    have hne : cards ≠ [] := getPlayType_ne_nil hb
    by_cases hcmp : lp.bombHighRank.getD 0 < getBombHighRank cards tw <;>
      simp [validatePlay, hb, hne, hlp, hcmp]
  · intro hnb hlp
    cases hgt : getPlayType cards tw with
    | none =>
      by_cases hc : cards = []
      · subst hc; simp [validatePlay]
      · simp [validatePlay, hgt, hc]
    | some t =>
      have hne : cards ≠ [] := getPlayType_ne_nil hgt
      have ht : t ≠ PlayType.bomb := by
        intro he
        exact hnb (he ▸ hgt)
      simp [validatePlay, hgt, hne, ht, hlp]

/-- Witness for C4: the 7-high bomb beats a cached single Ace. -/
theorem C4_bomb_rules_witness :
    (validatePlay Fix.bomb7 (some Fix.lpAce) false).valid = true :=
  (C4_bomb_rules Fix.bomb7 Fix.lpAce false).1 (by decide) (by decide)

/-! ## Claim C5: same-type rank/suit comparison of the Validator -/

/-- Claim C5: for every candidate of type single, pair, triple, or quad played
against a non-bomb lastPlay of the same type and card count, validatePlay
accepts iff the candidate's rank value under twosHigh is strictly greater than
the lastPlay's rank value, or the rank values are equal and the candidate's
highest suit value strictly exceeds the lastPlay's highSuit; in all other
cases it rejects. -/
theorem C5_same_type_comparison (cards : List Card) (lp : PlayedCards) (tw : Bool)
    (t : PlayType) (hcl : getPlayType cards tw = some t)
    (ht : t = PlayType.single ∨ t = PlayType.pair ∨ t = PlayType.triple ∨ t = PlayType.quad)
    (hlp : lp.playType = some t) (hcount : lp.count = cards.length) :
    ((validatePlay cards (some lp) tw).valid = true ↔
      (getCardValue lp.rank tw < getCardValue cards.headI.rank tw ∨
        (getCardValue cards.headI.rank tw = getCardValue lp.rank tw ∧
          lp.highSuit.getD 0 < getHighestSuitInSet cards))) := by
  have hne : cards ≠ [] := getPlayType_ne_nil hcl
  have htb : t ≠ PlayType.bomb := by rcases ht with h | h | h | h <;> subst h <;> simp
  have htr : t ≠ PlayType.run := by rcases ht with h | h | h | h <;> subst h <;> simp
  by_cases h1 : getCardValue lp.rank tw < getCardValue cards.headI.rank tw
  · simp [validatePlay, hcl, hne, htb, htr, hlp, hcount, h1]
  · by_cases h2 : getCardValue cards.headI.rank tw = getCardValue lp.rank tw
    · by_cases h3 : lp.highSuit.getD 0 < getHighestSuitInSet cards <;>
        simp [validatePlay, hcl, hne, htb, htr, hlp, hcount, h1, h2, h3]
    · simp [validatePlay, hcl, hne, htb, htr, hlp, hcount, h1, h2]

/-- Witness for C5: a single 7 of clubs against the cached single 5 of
spades. -/
theorem C5_same_type_comparison_witness :
    ((validatePlay [Fix.c .seven .clubs] (some Fix.lpFive) false).valid = true ↔
      (getCardValue Fix.lpFive.rank false < getCardValue ([Fix.c .seven .clubs]).headI.rank false ∨
        (getCardValue ([Fix.c .seven .clubs]).headI.rank false = getCardValue Fix.lpFive.rank false ∧
          Fix.lpFive.highSuit.getD 0 < getHighestSuitInSet [Fix.c .seven .clubs]))) :=
  C5_same_type_comparison [Fix.c .seven .clubs] Fix.lpFive false PlayType.single
    (by decide) (Or.inl rfl) (by decide) (by decide)

/-! ## Claim C10: unknown actors are silent no-ops -/

/-- Claim C10: calling playCards or passPlay with a playerId that does not
occur in state.players, or completeTrade with a null tradingState or a from/to
playerId not in state.players, returns the input state unchanged. -/
theorem C10_missing_actor_noop (st : GameState) (pid fromId toId : String)
    (cards cards2 : List Card) :
    ((∀ p ∈ st.players, p.id ≠ pid) →
      playCards st pid cards = st ∧ passPlay st pid = st) ∧
    (st.tradingState = none → completeTrade st fromId toId cards2 = st) ∧
    ((∀ p ∈ st.players, p.id ≠ fromId) → completeTrade st fromId toId cards2 = st) ∧
    ((∀ p ∈ st.players, p.id ≠ toId) → completeTrade st fromId toId cards2 = st) := by
  refine ⟨?_, ?_, ?_, ?_⟩
  · intro hmem
    have h1 : st.players.findIdx? (·.id == pid) = none :=
      findIdx?_eq_none_of_forall (by intro x hx; simpa using hmem x hx)
    constructor
    · simp [playCards, h1]
    · simp [passPlay, h1]
  · intro hts
    simp [completeTrade, hts]
  · intro hmem
    have h1 : st.players.findIdx? (·.id == fromId) = none :=
      findIdx?_eq_none_of_forall (by intro x hx; simpa using hmem x hx)
    cases hts : st.tradingState <;> simp [completeTrade, hts, h1]
  · intro hmem
    have h1 : st.players.findIdx? (·.id == toId) = none :=
      findIdx?_eq_none_of_forall (by intro x hx; simpa using hmem x hx)
    cases hts : st.tradingState with
    | none => simp [completeTrade, hts]
    | some ts =>
      cases hf : st.players.findIdx? (·.id == fromId) <;>
        simp [completeTrade, hts, h1, hf]

/-- Witness for C10: an unknown seat id on the C3 fixture state. -/
theorem C10_missing_actor_noop_witness :
    playCards Fix.c3state "ghost" [Fix.c .five .clubs] = Fix.c3state ∧
      passPlay Fix.c3state "ghost" = Fix.c3state :=
  (C10_missing_actor_noop Fix.c3state "ghost" "g2" "g3" [] []).1 (by decide)

/-! ## Claim C8: round-end scoring -/

theorem getRank_natCast_eq (pos : Nat) (n : Nat) :
    getRank (pos : Int) n =
      (if pos = 0 then PlayerRank.KING
        else if pos = 1 then PlayerRank.QUEEN
        else if pos = 2 ∧ n > 4 then PlayerRank.NOBLE
        else PlayerRank.PEASANT) := by
  match pos with
  | 0 => simp [getRank]
  | 1 => simp [getRank]
  | 2 =>
    by_cases hn : n > 4
    · simp [getRank, hn]
    · by_cases hn4 : n = 4 <;> simp [getRank, hn, hn4]
  | pos + 3 =>
    have h0 : ((pos : Int) + 3) ≠ 0 := by omega
    have h1 : ((pos : Int) + 3) ≠ 1 := by omega
    have h2 : ((pos : Int) + 3) ≠ 2 := by omega
    simp only [getRank]
    push_cast
    simp [h0, h1, h2]

/-- Claim C8: round-end scoring adds exactly [4,3,2,0], [5,4,3,2,0], or
[6,5,4,3,2,0] (for 4, 5, or 6 players) indexed by finish position to each
finished seat's totalScore, assigns currentRank KING at position 0, QUEEN at
position 1, NOBLE at position 2 only when playerCount > 4 (else PEASANT), and
PEASANT at every other position, and afterwards status is GAME_OVER iff some
seat's updated totalScore is at least winScore, else ROUND_END with
currentPlayerId null. -/
theorem C8_endRound_scoring (st : GameState)
    (hpc : st.settings.playerCount = 4 ∨ st.settings.playerCount = 5 ∨
      st.settings.playerCount = 6)
    (hlen : st.finishOrder.length ≤ st.settings.playerCount) :
    (endRound st).currentPlayerId = none ∧
    ((endRound st).status = GameStatus.GAME_OVER ↔
      ∃ q ∈ (endRound st).players, st.settings.winScore ≤ q.totalScore) ∧
    ((endRound st).status = GameStatus.GAME_OVER ∨
      (endRound st).status = GameStatus.ROUND_END) ∧
    getPoints 4 = [4, 3, 2, 0] ∧ getPoints 5 = [5, 4, 3, 2, 0] ∧
    getPoints 6 = [6, 5, 4, 3, 2, 0] ∧
    (∀ i p, st.players.get? i = some p →
      ∃ q, (endRound st).players.get? i = some q ∧
        (∀ pos, st.finishOrder.findIdx? (· == p.id) = some pos →
          q.totalScore = p.totalScore + (getPoints st.settings.playerCount).getD pos 0 ∧
          q.currentRank = some (
            if pos = 0 then PlayerRank.KING
            else if pos = 1 then PlayerRank.QUEEN
            else if pos = 2 ∧ st.settings.playerCount > 4 then PlayerRank.NOBLE
            else PlayerRank.PEASANT)) ∧
        (st.finishOrder.findIdx? (· == p.id) = none →
          q.totalScore = p.totalScore ∧ q.currentRank = some PlayerRank.PEASANT)) := by
  refine ⟨rfl, ?_, ?_, rfl, rfl, rfl, ?_⟩
  · cases hfind : (endRound st).players.find? (fun p =>
        decide (p.totalScore ≥ st.settings.winScore)) with
    | none =>
      have hnone : ∀ q ∈ (endRound st).players, ¬ st.settings.winScore ≤ q.totalScore := by
        intro q hq
        have := List.find?_eq_none.mp hfind q hq
        simpa using this
      have hstat : (endRound st).status = GameStatus.ROUND_END := by
        simp only [endRound] at hfind ⊢
        rw [hfind]
        rfl
      constructor
      · intro h; rw [hstat] at h; exact absurd h (by simp)
      · rintro ⟨q, hq, hle⟩; exact absurd hle (hnone q hq)
    | some w =>
      have hstat : (endRound st).status = GameStatus.GAME_OVER := by
        simp only [endRound] at hfind ⊢
        rw [hfind]
        rfl
      constructor
      · intro _
        refine ⟨w, List.mem_of_find?_eq_some hfind, ?_⟩
        have := List.find?_some hfind
        simpa using this
      · intro _; exact hstat
  · cases hfind : (endRound st).players.find? (fun p =>
        decide (p.totalScore ≥ st.settings.winScore)) with
    | none =>
      right
      simp only [endRound] at hfind ⊢
      rw [hfind]
      rfl
    | some w =>
      left
      simp only [endRound] at hfind ⊢
      rw [hfind]
      rfl
  · intro i p hp
    have hp' : st.players[i]? = some p := by rwa [List.get?_eq_getElem?] at hp
    simp only [endRound]
    rw [List.get?_eq_getElem?, List.getElem?_map, hp', Option.map_some']
    refine ⟨_, rfl, ?_, ?_⟩
    · intro pos hpos
      have hidx : jsIndexOf st.finishOrder p.id = (pos : Int) := by
        simp [jsIndexOf, hpos]
      rw [hidx]
      have hge : ((pos : Int) ≥ 0) := by positivity
      simp only [hge, if_true, Int.toNat_natCast, getRank_natCast_eq]
      exact ⟨trivial, trivial⟩
    · intro hnone
      have hidx : jsIndexOf st.finishOrder p.id = -1 := by
        simp [jsIndexOf, hnone]
      rw [hidx]
      have hlt : ¬ ((-1 : Int) ≥ 0) := by omega
      have hrank : getRank (-1) st.settings.playerCount = PlayerRank.PEASANT := by
        have h0 : ((-1 : Int) = 0) = False := by simp
        have h1 : ((-1 : Int) = 1) = False := by simp
        have h2 : ((-1 : Int) = 2) = False := by simp
        simp [getRank, h0, h1, h2]
      simp only [hlt, if_false, hrank]
      exact ⟨by ring, trivial⟩

/-- Witness for C8: the all-finished 4-player fixture round ends with no
current player. -/
theorem C8_endRound_scoring_witness :
    (endRound Fix.c8state).currentPlayerId = none :=
  (C8_endRound_scoring Fix.c8state (Or.inl rfl) (by decide)).1

/-! ## Cyclic-scan helper lemmas -/

theorem mod_coverage (n s i : Nat) (hs : s < n) (hi : i < n) :
    ∃ k < n, (s + k) % n = i := by
  by_cases h : s ≤ i
  · refine ⟨i - s, by omega, ?_⟩
    rw [Nat.add_sub_cancel' h]
    exact Nat.mod_eq_of_lt hi
  · refine ⟨n - s + i, by omega, ?_⟩
    have he : s + (n - s + i) = n + i := by omega
    rw [he, Nat.add_mod_left]
    exact Nat.mod_eq_of_lt hi

theorem nextPlayerScan_char (players : List PlayerState) (n : Nat)
    (hn : n = players.length) :
    ∀ fuel s, s < n →
      ∃ k ≤ fuel, nextPlayerScan players n s fuel = (s + k) % n ∧
        (∀ j < k, ∃ q, players.get? ((s + j) % n) = some q ∧ q.isFinished = true) ∧
        (k < fuel → ∃ p, players.get? ((s + k) % n) = some p ∧ p.isFinished = false) := by
  intro fuel
  induction fuel with
  | zero =>
    intro s hs
    refine ⟨0, le_rfl, ?_, ?_, ?_⟩
    · simp [nextPlayerScan, Nat.mod_eq_of_lt hs]
    · intro j hj; omega
    · intro h; omega
  | succ fuel ih =>
    intro s hs
    have hn0 : 0 < n := by omega
    have hget : ∃ p, players[s]? = some p :=
      ⟨players.get ⟨s, hn ▸ hs⟩, List.getElem?_eq_getElem _⟩
    obtain ⟨p, hp⟩ := hget
    have hpget : players.get? s = some p := by rwa [List.get?_eq_getElem?]
    by_cases hfin : p.isFinished
    · have hs' : (s + 1) % n < n := Nat.mod_lt _ (by omega)
      obtain ⟨k', hk'le, hres, hbefore, hfound⟩ := ih ((s + 1) % n) hs'
      refine ⟨k' + 1, by omega, ?_, ?_, ?_⟩
      · have : nextPlayerScan players n s (fuel + 1) =
            nextPlayerScan players n ((s + 1) % n) fuel := by
          simp [nextPlayerScan, hp, hfin]
        rw [this, hres, Nat.mod_add_mod]
        congr 1
        omega
      · intro j hj
        match j with
        | 0 =>
          refine ⟨p, ?_, hfin⟩
          rwa [Nat.add_zero, Nat.mod_eq_of_lt hs]
          
        | j + 1 =>
          have := hbefore j (by omega)
          rwa [Nat.mod_add_mod, show (s + 1 + j) = s + (j + 1) by omega] at this
      · intro hk
        have := hfound (by omega)
        rwa [Nat.mod_add_mod, show (s + 1 + k') = s + (k' + 1) by omega] at this
    · refine ⟨0, by omega, ?_, ?_, ?_⟩
      · simp only [nextPlayerScan, List.get?_eq_getElem?]
        simp [hp, hfin, Nat.mod_eq_of_lt hs]
      · intro j hj; omega
      · intro _
        refine ⟨p, ?_, by simpa using hfin⟩
        rwa [Nat.add_zero, Nat.mod_eq_of_lt hs]

/-- state.ts `getNextPlayer` returns the first non-finished seat scanning seat
indices cyclically from the one after `curIdx`, provided some seat is still
active. -/
theorem getNextPlayer_active (players : List PlayerState) (curIdx : Int) (n : Nat)
    (hn : n = players.length) (hn0 : 0 < n)
    (hex : ∃ p ∈ players, p.isFinished = false) :
    ∃ k < n, ∃ p,
      players.get? ((((curIdx + 1) % (n : Int)).toNat + k) % n) = some p ∧
      p.isFinished = false ∧ getNextPlayer players curIdx n = p.id ∧
      (∀ j < k, ∃ q,
        players.get? ((((curIdx + 1) % (n : Int)).toNat + j) % n) = some q ∧
        q.isFinished = true) := by
  set s := ((curIdx + 1) % (n : Int)).toNat with hs_def
  have hsn : s < n := by
    have h1 : 0 ≤ (curIdx + 1) % (n : Int) := Int.emod_nonneg _ (by omega)
    have h2 : (curIdx + 1) % (n : Int) < (n : Int) := Int.emod_lt_of_pos _ (by omega)
    omega
  obtain ⟨k, hkle, hres, hbefore, hfound⟩ := nextPlayerScan_char players n hn n s hsn
  by_cases hk : k < n
  · obtain ⟨p, hp, hpfin⟩ := hfound hk
    refine ⟨k, hk, p, hp, hpfin, ?_, hbefore⟩
    simp only [getNextPlayer, ← hs_def, hres, hp]
    rfl
  · exfalso
    have hkn : k = n := by omega
    obtain ⟨p, hpmem, hpfin⟩ := hex
    obtain ⟨i, hi, hpi⟩ := List.mem_iff_getElem.mp hpmem
    obtain ⟨j, hj, hji⟩ := mod_coverage n s i hsn (hn ▸ hi)
    obtain ⟨q, hq, hqfin⟩ := hbefore j (by omega)
    rw [hji] at hq
    rw [List.get?_eq_getElem?] at hq
    have : q = p := by
      have := List.getElem?_eq_getElem hi
      rw [hpi] at this
      rw [this] at hq
      exact (Option.some_inj.mp hq).symm
    rw [this] at hqfin
    rw [hqfin] at hpfin
    cases hpfin

/-! ## Claim C6: passPlay pass-out behaviour (corrected) -/

/-- Counterexample to C6 as stated: in the fixture, the trick leader L (who
has finished) owns the last play; after a1 and a2 pass, the pass-out branch
fires, but the new current player is a3 — not the next active seat after the
leader, which is a1. -/
theorem C6_counterexample :
    (passPlay (passPlay Fix.c6state "a1") "a2").lastPlay = none ∧
    (passPlay (passPlay Fix.c6state "a1") "a2").passCount = 0 ∧
    Fix.c6state.lastPlay.map (·.playerId) = some "L" ∧
    getNextPlayer Fix.c6state.players (jsFindIndexById Fix.c6state.players (some "L")) 4
      = "a1" ∧
    (passPlay (passPlay Fix.c6state "a1") "a2").currentPlayerId = some "a3" ∧
    ("a3" : String) ≠ "a1" := by
  refine ⟨?_, ?_, ?_, ?_, ?_, ?_⟩ <;> decide

/-- Claim C6 (amended): passPlay increments passCount, and whenever the
incremented passCount reaches at least activePlayers - 1 it clears lastPlay,
resets passCount to 0, and sets currentPlayerId to the first non-finished
seat in seat order after the state's current player (the passer) — not after
the original trick leader; the leader leads the fresh trick again only when
the passer happens to be the last active seat before the leader. -/
theorem C6_passPlay_amended (st : GameState) (pid : String) (i : Nat)
    (hfind : st.players.findIdx? (·.id == pid) = some i)
    (hn : st.settings.playerCount = st.players.length)
    (hn0 : 0 < st.settings.playerCount)
    (hex : ∃ p ∈ st.players, p.isFinished = false) :
    ((st.players.filter (fun p => !p.isFinished)).length - 1 ≤ st.passCount + 1 →
      (passPlay st pid).lastPlay = none ∧ (passPlay st pid).passCount = 0 ∧
      ∃ k < st.settings.playerCount, ∃ p,
        st.players.get? ((((jsFindIndexById st.players st.currentPlayerId + 1) %
            (st.settings.playerCount : Int)).toNat + k) % st.settings.playerCount)
          = some p ∧
        p.isFinished = false ∧ (passPlay st pid).currentPlayerId = some p.id ∧
        (∀ j < k, ∃ q,
          st.players.get? ((((jsFindIndexById st.players st.currentPlayerId + 1) %
              (st.settings.playerCount : Int)).toNat + j) % st.settings.playerCount)
            = some q ∧ q.isFinished = true)) ∧
    (st.passCount + 1 < (st.players.filter (fun p => !p.isFinished)).length - 1 →
      (passPlay st pid).lastPlay = st.lastPlay ∧
      (passPlay st pid).passCount = st.passCount + 1) := by
  constructor
  · intro hthr
    have hcond : st.passCount + 1 ≥ (st.players.filter (fun p => !p.isFinished)).length - 1 :=
      hthr
    obtain ⟨k, hk, p, hp, hpfin, hgnp, hbefore⟩ :=
      getNextPlayer_active st.players (jsFindIndexById st.players st.currentPlayerId)
        st.settings.playerCount hn hn0 hex
    refine ⟨?_, ?_, k, hk, p, hp, hpfin, ?_, hbefore⟩
    · simp [passPlay, hfind, hcond]
    · simp [passPlay, hfind, hcond]
    · simp [passPlay, hfind, hcond, hgnp]
  · intro hthr
    have hcond : ¬ (st.passCount + 1 ≥
        (st.players.filter (fun p => !p.isFinished)).length - 1) := by omega
    constructor
    · simp [passPlay, hfind, hcond]
    · simp [passPlay, hfind, hcond]

/-- Witness for the amended C6: in the fixture, a1's first pass just
increments the counter and keeps the last play. -/
theorem C6_passPlay_amended_witness :
    (passPlay Fix.c6state "a1").lastPlay = Fix.c6state.lastPlay ∧
      (passPlay Fix.c6state "a1").passCount = Fix.c6state.passCount + 1 :=
  (C6_passPlay_amended Fix.c6state "a1" 1 (by decide) rfl (by decide) (by decide)).2
    (by decide)

/-! ## Route scan lemmas (for C2 and C7) -/

theorem find?_id_self_of_nodup {players : List PlayerState}
    (hnodup : (players.map (·.id)).Nodup) {p : PlayerState} (hp : p ∈ players) :
    players.find? (·.id == p.id) = some p := by
  induction players with
  | nil => cases hp
  | cons q t ih =>
    rw [List.map_cons, List.nodup_cons] at hnodup
    rcases List.mem_cons.mp hp with rfl | hpt
    · simp [List.find?_cons]
    · have hne : q.id ≠ p.id := by
        intro he
        exact hnodup.1 (he ▸ List.mem_map_of_mem (·.id) hpt)
      have hq : (q.id == p.id) = false := by simpa using hne
      rw [List.find?_cons, hq]
      exact ih hnodup.2 hpt

theorem gnvScan_found (players : List PlayerState) (tord : List String) (req : Nat) :
    ∀ fuel s sk id sk', Route.gnvScan players tord req s fuel sk = (some id, sk') →
      ∃ p ∈ players, p.id = id ∧ p.isFinished = false ∧ req ≤ p.hand.length := by
  intro fuel
  induction fuel with
  | zero =>
    intro s sk id sk' h
    simp [Route.gnvScan] at h
  | succ fuel ih =>
    intro s sk id sk' h
    rw [Route.gnvScan] at h
    cases hf : players.find? (fun p => p.id == tord.getD s "") with
    | none =>
      simp only [hf] at h
      exact ih _ _ _ _ h
    | some p =>
      simp only [hf] at h
      by_cases hfin : p.isFinished
      · rw [if_neg (by simp [hfin])] at h
        exact ih _ _ _ _ h
      · rw [if_pos (by simp [hfin])] at h
        by_cases hlen : p.hand.length ≥ req
        · rw [if_pos hlen] at h
          have hid : id = tord.getD s "" := by
            have := congrArg Prod.fst h
            simpa using this.symm
          have hpid : p.id = tord.getD s "" := by
            simpa using List.find?_some hf
          exact ⟨p, List.mem_of_find?_eq_some hf, hid ▸ hpid,
            by simpa using hfin, hlen⟩
        · rw [if_neg hlen] at h
          exact ih _ _ _ _ h

theorem gnvScan_none (players : List PlayerState) (tord : List String) (req : Nat) :
    ∀ fuel s sk sk', s < tord.length →
      Route.gnvScan players tord req s fuel sk = (none, sk') →
      ∀ k < fuel, ∀ p,
        players.find? (fun q => q.id == tord.getD ((s + k) % tord.length) "") = some p →
        p.isFinished = false → p.hand.length < req := by
  intro fuel
  induction fuel with
  | zero =>
    intro s sk sk' hs h k hk
    omega
  | succ fuel ih =>
    intro s sk sk' hs h k hk p hfp hpfin
    have hlen0 : 0 < tord.length := by omega
    have hs' : (s + 1) % tord.length < tord.length := Nat.mod_lt _ hlen0
    rw [Route.gnvScan] at h
    match k with
    | 0 =>
      rw [Nat.add_zero, Nat.mod_eq_of_lt hs] at hfp
      simp only [hfp] at h
      rw [if_pos (by simp [hpfin])] at h
      by_cases hl : p.hand.length ≥ req
      · rw [if_pos hl] at h
        simp at h
      · omega
    | k + 1 =>
      have hstep : ∀ sk₂ sk₂',
          Route.gnvScan players tord req ((s + 1) % tord.length) fuel sk₂ = (none, sk₂') →
          p.hand.length < req := by
        intro sk₂ sk₂' hrec
        have := ih ((s + 1) % tord.length) sk₂ sk₂' hs' hrec k (by omega) p ?_ hpfin
        · exact this
        · rwa [Nat.mod_add_mod, show s + 1 + k = s + (k + 1) by omega]
      cases hf : players.find? (fun q => q.id == tord.getD s "") with
      | none =>
        simp only [hf] at h
        exact hstep _ _ h
      | some q =>
        simp only [hf] at h
        by_cases hqfin : q.isFinished
        · rw [if_neg (by simp [hqfin])] at h
          exact hstep _ _ h
        · rw [if_pos (by simp [hqfin])] at h
          by_cases hql : q.hand.length ≥ req
          · rw [if_pos hql] at h
            simp at h
          · rw [if_neg hql] at h
            exact hstep _ _ h

theorem gnvScan_skipped (players : List PlayerState) (tord : List String) (req : Nat) :
    ∀ fuel s sk r sk', Route.gnvScan players tord req s fuel sk = (r, sk') →
      ∀ p ∈ sk', p ∈ sk ∨
        (p ∈ players ∧ p.isFinished = false ∧ p.hand.length < req) := by
  intro fuel
  induction fuel with
  | zero =>
    intro s sk r sk' h p hp
    rw [Route.gnvScan] at h
    cases h
    exact Or.inl hp
  | succ fuel ih =>
    intro s sk r sk' h p hp
    rw [Route.gnvScan] at h
    cases hf : players.find? (fun q => q.id == tord.getD s "") with
    | none =>
      simp only [hf] at h
      exact ih _ _ _ _ h p hp
    | some q =>
      simp only [hf] at h
      by_cases hqfin : q.isFinished
      · rw [if_neg (by simp [hqfin])] at h
        exact ih _ _ _ _ h p hp
      · rw [if_pos (by simp [hqfin])] at h
        by_cases hql : q.hand.length ≥ req
        · rw [if_pos hql] at h
          cases h
          exact Or.inl hp
        · rw [if_neg hql] at h
          rcases ih _ _ _ _ h p hp with hmem | hfact
          · rcases List.mem_append.mp hmem with hmem' | hmem'
            · exact Or.inl hmem'
            · right
              rcases List.mem_singleton.mp hmem' with rfl
              exact ⟨List.mem_of_find?_eq_some hf, by simpa using hqfin, by omega⟩
          · exact Or.inr hfact

theorem gnvScan_mono (players : List PlayerState) (tord : List String) (req : Nat) :
    ∀ fuel s sk r sk', Route.gnvScan players tord req s fuel sk = (r, sk') →
      ∃ t, sk' = sk ++ t := by
  intro fuel
  induction fuel with
  | zero =>
    intro s sk r sk' h
    rw [Route.gnvScan] at h
    cases h
    exact ⟨[], by simp⟩
  | succ fuel ih =>
    intro s sk r sk' h
    rw [Route.gnvScan] at h
    cases hf : players.find? (fun q => q.id == tord.getD s "") with
    | none =>
      simp only [hf] at h
      exact ih _ _ _ _ h
    | some q =>
      simp only [hf] at h
      by_cases hqfin : q.isFinished
      · rw [if_neg (by simp [hqfin])] at h
        exact ih _ _ _ _ h
      · rw [if_pos (by simp [hqfin])] at h
        by_cases hql : q.hand.length ≥ req
        · rw [if_pos hql] at h
          cases h
          exact ⟨[], by simp⟩
        · rw [if_neg hql] at h
          obtain ⟨t, ht⟩ := ih _ _ _ _ h
          exact ⟨q :: t, by rw [ht, List.append_assoc]; rfl⟩

theorem gnvScan_found_full (players : List PlayerState) (tord : List String) (req : Nat) :
    ∀ fuel s sk id sk', s < tord.length →
      Route.gnvScan players tord req s fuel sk = (some id, sk') →
      ∃ k < fuel, id = tord.getD ((s + k) % tord.length) "" ∧
        (∃ p ∈ players, p.id = id ∧ p.isFinished = false ∧ req ≤ p.hand.length) ∧
        ∀ j < k, ∀ p,
          players.find? (fun q => q.id == tord.getD ((s + j) % tord.length) "") = some p →
          p.isFinished = false → p.hand.length < req ∧ p ∈ sk' := by
  intro fuel
  induction fuel with
  | zero =>
    intro s sk id sk' hs h
    simp [Route.gnvScan] at h
  | succ fuel ih =>
    intro s sk id sk' hs h
    have hlen0 : 0 < tord.length := by omega
    have hs' : (s + 1) % tord.length < tord.length := Nat.mod_lt _ hlen0
    rw [Route.gnvScan] at h
    cases hf : players.find? (fun q => q.id == tord.getD s "") with
    | none =>
      simp only [hf] at h
      obtain ⟨k, hk, hid, hfound, hbefore⟩ := ih ((s + 1) % tord.length) _ _ _ hs' h
      refine ⟨k + 1, by omega, ?_, hfound, ?_⟩
      · rwa [Nat.mod_add_mod, show s + 1 + k = s + (k + 1) by omega] at hid
      · intro j hj p hfp hpfin
        match j with
        | 0 =>
          rw [Nat.add_zero, Nat.mod_eq_of_lt hs] at hfp
          rw [hfp] at hf
          cases hf
        | j + 1 =>
          have := hbefore j (by omega) p ?_ hpfin
          · exact this
          · rwa [Nat.mod_add_mod, show s + 1 + j = s + (j + 1) by omega]
    | some q =>
      simp only [hf] at h
      by_cases hqfin : q.isFinished
      · rw [if_neg (by simp [hqfin])] at h
        obtain ⟨k, hk, hid, hfound, hbefore⟩ := ih ((s + 1) % tord.length) _ _ _ hs' h
        refine ⟨k + 1, by omega, ?_, hfound, ?_⟩
        · rwa [Nat.mod_add_mod, show s + 1 + k = s + (k + 1) by omega] at hid
        · intro j hj p hfp hpfin
          match j with
          | 0 =>
            rw [Nat.add_zero, Nat.mod_eq_of_lt hs] at hfp
            rw [hfp] at hf
            have hpq := Option.some_inj.mp hf
            simp [hpq, hqfin] at hpfin
          | j + 1 =>
            have := hbefore j (by omega) p ?_ hpfin
            · exact this
            · rwa [Nat.mod_add_mod, show s + 1 + j = s + (j + 1) by omega]
      · rw [if_pos (by simp [hqfin])] at h
        by_cases hql : q.hand.length ≥ req
        · rw [if_pos hql] at h
          have hid : id = tord.getD s "" := by
            have := congrArg Prod.fst h
            simpa using this.symm
          refine ⟨0, by omega, ?_, ?_, ?_⟩
          · rw [Nat.add_zero, Nat.mod_eq_of_lt hs]
            exact hid
          · have hqid : q.id = tord.getD s "" := by
              simpa using List.find?_some hf
            exact ⟨q, List.mem_of_find?_eq_some hf, hid ▸ hqid,
              by simpa using hqfin, hql⟩
          · intro j hj
            omega
        · rw [if_neg hql] at h
          obtain ⟨k, hk, hid, hfound, hbefore⟩ := ih ((s + 1) % tord.length) _ _ _ hs' h
          refine ⟨k + 1, by omega, ?_, hfound, ?_⟩
          · rwa [Nat.mod_add_mod, show s + 1 + k = s + (k + 1) by omega] at hid
          · intro j hj p hfp hpfin
            match j with
            | 0 =>
              rw [Nat.add_zero, Nat.mod_eq_of_lt hs] at hfp
              rw [hfp] at hf
              have hpq := Option.some_inj.mp hf
              refine ⟨by rw [hpq]; omega, ?_⟩
              obtain ⟨t, ht⟩ := gnvScan_mono players tord req _ _ _ _ _ h
              rw [ht, hpq]
              simp
            | j + 1 =>
              have := hbefore j (by omega) p ?_ hpfin
              · exact this
              · rwa [Nat.mod_add_mod, show s + 1 + j = s + (j + 1) by omega]

theorem gnvScan_none_mem (players : List PlayerState) (tord : List String) (req : Nat) :
    ∀ fuel s sk sk', s < tord.length →
      Route.gnvScan players tord req s fuel sk = (none, sk') →
      ∀ k < fuel, ∀ p,
        players.find? (fun q => q.id == tord.getD ((s + k) % tord.length) "") = some p →
        p.isFinished = false → p.hand.length < req ∧ p ∈ sk' := by
  intro fuel
  induction fuel with
  | zero =>
    intro s sk sk' hs h k hk
    omega
  | succ fuel ih =>
    intro s sk sk' hs h k hk p hfp hpfin
    have hlen0 : 0 < tord.length := by omega
    have hs' : (s + 1) % tord.length < tord.length := Nat.mod_lt _ hlen0
    rw [Route.gnvScan] at h
    match k with
    | 0 =>
      rw [Nat.add_zero, Nat.mod_eq_of_lt hs] at hfp
      simp only [hfp] at h
      rw [if_pos (by simp [hpfin])] at h
      by_cases hl : p.hand.length ≥ req
      · rw [if_pos hl] at h
        simp at h
      · rw [if_neg hl] at h
        obtain ⟨t, ht⟩ := gnvScan_mono players tord req _ _ _ _ _ h
        refine ⟨by omega, ?_⟩
        rw [ht]
        simp
    | k + 1 =>
      have hstep : ∀ sk₂,
          Route.gnvScan players tord req ((s + 1) % tord.length) fuel sk₂ = (none, sk') →
          p.hand.length < req ∧ p ∈ sk' := by
        intro sk₂ hrec
        have := ih ((s + 1) % tord.length) sk₂ sk' hs' hrec k (by omega) p ?_ hpfin
        · exact this
        · rwa [Nat.mod_add_mod, show s + 1 + k = s + (k + 1) by omega]
      cases hf : players.find? (fun q => q.id == tord.getD s "") with
      | none =>
        simp only [hf] at h
        exact hstep _ h
      | some q =>
        simp only [hf] at h
        by_cases hqfin : q.isFinished
        · rw [if_neg (by simp [hqfin])] at h
          exact hstep _ h
        · rw [if_pos (by simp [hqfin])] at h
          by_cases hql : q.hand.length ≥ req
          · rw [if_pos hql] at h
            simp at h
          · rw [if_neg hql] at h
            exact hstep _ h

theorem mem_id_unique {players : List PlayerState}
    (hnodup : (players.map (·.id)).Nodup) {p q : PlayerState}
    (hp : p ∈ players) (hq : q ∈ players) (hid : p.id = q.id) : p = q := by
  have h1 := find?_id_self_of_nodup hnodup hp
  have h2 := find?_id_self_of_nodup hnodup hq
  rw [hid] at h1
  rw [h1] at h2
  exact Option.some_inj.mp h2

theorem filter_unique_id {players : List PlayerState}
    (hnodup : (players.map (·.id)).Nodup) (f : PlayerState → Bool) {cp : PlayerState}
    (hcp : cp ∈ players) (hfcp : f cp = true)
    (hall : ∀ q ∈ players, f q = true → q.id = cp.id) :
    players.filter f = [cp] := by
  induction players with
  | nil => cases hcp
  | cons a t ih =>
    rw [List.map_cons, List.nodup_cons] at hnodup
    rcases List.mem_cons.mp hcp with rfl | hcpt
    · rw [List.filter_cons_of_pos hfcp]
      have ht : t.filter f = [] := by
        rw [List.filter_eq_nil_iff]
        intro q hq hfq
        exact hnodup.1 (hall q (List.mem_cons_of_mem _ hq) hfq ▸
          List.mem_map_of_mem (·.id) hq)
      rw [ht]
    · have hfa : f a = false := by
        by_contra hfa'
        have hfa2 : f a = true := by simpa using hfa'
        have : a.id = cp.id := hall a (List.mem_cons_self _ _) hfa2
        exact hnodup.1 (this ▸ List.mem_map_of_mem (·.id) hcpt)
      rw [List.filter_cons_of_neg (by simp [hfa])]
      exact ih hnodup.2 hcpt (fun q hq hfq => hall q (List.mem_cons_of_mem _ hq) hfq)

/-- The fallback of the turn-advance: the chosen seat is the just-played seat
or the loop's choice; the skipped list is the loop's. -/
theorem advanceAfterPlay_shape (players : List PlayerState) (myId : String)
    (tord : List String) (required : Nat) :
    ((Route.advanceAfterPlay players myId tord required).1 = myId ∨
      (Route.advanceAfterPlay players myId tord required).1 =
        (Route.getNextValidPlayer players myId tord required).1) ∧
    (Route.advanceAfterPlay players myId tord required).2.2 =
      (Route.getNextValidPlayer players myId tord required).2 := by
  unfold Route.advanceAfterPlay
  cases hgnv : Route.getNextValidPlayer players myId tord required with
  | mk nextId skipped =>
    simp only
    split
    · split
      · split
        · simp
        · simp
      · simp
    · simp

/-! ## Claim C2: auto-skip of seats with insufficient cards (corrected) -/

/-- Counterexample to C2 as stated: seat a has just gone out, seats b and c
each hold one card while the table requires two; the turn-advance of the
polling route's play action hands the turn to b, a non-finished seat with
fewer cards than the active combination requires. -/
theorem C2_counterexample :
    (Route.advanceAfterPlay Fix.c2players "a" ["a", "b", "c"] 2).1 = "b" ∧
    (Route.advanceAfterPlay Fix.c2players "a" ["a", "b", "c"] 2).2.1 = false ∧
    (∃ p ∈ Fix.c2players, p.id = "b" ∧ p.isFinished = false ∧ p.hand.length < 2) := by
  refine ⟨?_, ?_, ?_⟩ <;> decide

/-- Claim C2 (amended): every auto-skip recorded by the turn-advance is a
seated non-finished player with fewer cards than the required count, and one
of three scenarios holds.  Either the scan chooses a non-finished seat with at
least the required number of cards and every non-finished seat it passed over
before that choice is short-handed and recorded; or every non-finished seat is
short-handed and the just-played seat is still active, in which case it keeps
the turn with the pile cleared (leading a fresh trick) and every non-finished
seat is recorded; or every non-finished seat is short-handed and the
just-played seat has finished or is absent, in which case the fallback hands
the turn to the first non-finished seat despite its short hand, without
clearing the pile, and every non-finished seat is recorded. -/
theorem C2_advance_skips_insufficient (players : List PlayerState) (myId : String)
    (tord : List String) (required : Nat)
    (hids : ∀ p ∈ players, p.id ∈ tord)
    (hnodup : (players.map (·.id)).Nodup) :
    (∀ p ∈ (Route.advanceAfterPlay players myId tord required).2.2,
      p ∈ players ∧ p.isFinished = false ∧ p.hand.length < required) ∧
    ((∃ k < tord.length,
        (Route.advanceAfterPlay players myId tord required).1 =
          tord.getD ((((jsIndexOf tord myId + 1) % (tord.length : Int)).toNat + k)
            % tord.length) "" ∧
        (∃ p ∈ players, p.id = (Route.advanceAfterPlay players myId tord required).1 ∧
          p.isFinished = false ∧ required ≤ p.hand.length) ∧
        (∀ j < k, ∀ p,
          players.find? (fun q => q.id == tord.getD
            ((((jsIndexOf tord myId + 1) % (tord.length : Int)).toNat + j)
              % tord.length) "") = some p →
          p.isFinished = false → p.hand.length < required ∧
            p ∈ (Route.advanceAfterPlay players myId tord required).2.2)) ∨
      ((∀ p ∈ players, p.isFinished = false → p.hand.length < required) ∧
        (∃ cp ∈ players, cp.id = myId ∧ cp.isFinished = false) ∧
        (Route.advanceAfterPlay players myId tord required).1 = myId ∧
        (Route.advanceAfterPlay players myId tord required).2.1 = true ∧
        (∀ p ∈ players, p.isFinished = false →
          p ∈ (Route.advanceAfterPlay players myId tord required).2.2)) ∨
      ((∀ p ∈ players, p.isFinished = false → p.hand.length < required) ∧
        (∀ cp ∈ players, cp.id = myId → cp.isFinished = true) ∧
        (Route.advanceAfterPlay players myId tord required).1 =
          (((players.filter (fun p => !p.isFinished)).head?.map (·.id)).getD
            (tord.getD 0 "")) ∧
        (Route.advanceAfterPlay players myId tord required).2.1 = false ∧
        (∀ p ∈ players, p.isFinished = false →
          p ∈ (Route.advanceAfterPlay players myId tord required).2.2))) := by
  cases hscan : Route.gnvScan players tord required
      (((jsIndexOf tord myId + 1) % (tord.length : Int)).toNat) tord.length [] with
  | mk r sk =>
    have hskfact : ∀ p ∈ sk,
        p ∈ players ∧ p.isFinished = false ∧ p.hand.length < required := by
      intro p hp
      rcases gnvScan_skipped players tord required _ _ _ _ _ hscan p hp with hmem | hfact
      · cases hmem
      · exact hfact
    cases r with
    | some id =>
      have hval : Route.getNextValidPlayer players myId tord required = (id, sk) := by
        simp only [Route.getNextValidPlayer, hscan]
      have hn0 : 0 < tord.length := by
        by_contra h0
        have hz : tord.length = 0 := by omega
        rw [hz] at hscan
        simp [Route.gnvScan] at hscan
      have hs : (((jsIndexOf tord myId + 1) % (tord.length : Int)).toNat) < tord.length := by
        have h1 : 0 ≤ (jsIndexOf tord myId + 1) % (tord.length : Int) :=
          Int.emod_nonneg _ (by omega)
        have h2 : (jsIndexOf tord myId + 1) % (tord.length : Int) < (tord.length : Int) :=
          Int.emod_lt_of_pos _ (by omega)
        omega
      obtain ⟨k, hk, hid, hfound, hbefore⟩ :=
        gnvScan_found_full players tord required _ _ _ _ _ hs hscan
      obtain ⟨q, hqmem, hqid, hqfin, hqlen⟩ := hfound
      have hq_nosk : sk.any (fun s => s.id == q.id) = false := by
        rw [List.any_eq_false]
        intro s hsmem hbeq
        obtain ⟨hsp, hsfin, hslen⟩ := hskfact s hsmem
        have hsid : s.id = q.id := by simpa using hbeq
        have hsq : s = q := mem_id_unique hnodup hsp hqmem hsid
        rw [hsq] at hslen
        omega
      have hR : ∃ b, Route.advanceAfterPlay players myId tord required = (id, b, sk) := by
        unfold Route.advanceAfterPlay
        rw [hval]
        dsimp only
        by_cases hsl : sk.length > 0
        · rw [if_pos hsl]
          cases hnsa0 : (players.filter (fun p => !p.isFinished)).filter
              (fun p => p.id == myId || ! sk.any (fun s => s.id == p.id)) with
          | nil => exact ⟨false, rfl⟩
          | cons p0 rest =>
            cases rest with
            | nil =>
              dsimp only
              have hqin : q ∈ (players.filter (fun p => !p.isFinished)).filter
                  (fun p => p.id == myId || ! sk.any (fun s => s.id == p.id)) := by
                rw [List.mem_filter, List.mem_filter]
                exact ⟨⟨hqmem, by simp [hqfin]⟩, by simp [hq_nosk]⟩
              rw [hnsa0] at hqin
              have hqp0 : q = p0 := by simpa using hqin
              by_cases hcnd : (p0.id == myId && ((players.find? (fun p => p.id == myId)).map
                  (fun p => !p.isFinished)).getD false) = true
              · rw [if_pos hcnd]
                have hidmy : id = myId := by
                  have hcnd2 := hcnd
                  rw [Bool.and_eq_true] at hcnd2
                  have h2 : p0.id = myId := by simpa using hcnd2.1
                  rw [← hqid, hqp0, h2]
                exact ⟨true, by rw [hidmy]⟩
              · rw [if_neg hcnd]
                exact ⟨false, rfl⟩
            | cons p1 rest2 => exact ⟨false, rfl⟩
        · rw [if_neg hsl]
          exact ⟨false, rfl⟩
      obtain ⟨b, hRfull⟩ := hR
      refine ⟨?_, Or.inl ⟨k, hk, ?_, ⟨q, hqmem, ?_, hqfin, hqlen⟩, ?_⟩⟩
      · intro p hp
        rw [hRfull] at hp
        exact hskfact p hp
      · rw [hRfull]
        exact hid
      · rw [hRfull]
        exact hqid
      · intro j hj p hfp hpfin
        obtain ⟨h1, h2⟩ := hbefore j hj p hfp hpfin
        refine ⟨h1, ?_⟩
        rw [hRfull]
        exact h2
    | none =>
      have hallfact : ∀ p ∈ players, p.isFinished = false →
          p.hand.length < required ∧ p ∈ sk := by
        intro p hpmem hpfin
        have hpin : p.id ∈ tord := hids p hpmem
        have hlen0 : 0 < tord.length := List.length_pos.mpr (List.ne_nil_of_mem hpin)
        have hs : (((jsIndexOf tord myId + 1) % (tord.length : Int)).toNat) < tord.length := by
          have h1 : 0 ≤ (jsIndexOf tord myId + 1) % (tord.length : Int) :=
            Int.emod_nonneg _ (by omega)
          have h2 : (jsIndexOf tord myId + 1) % (tord.length : Int) < (tord.length : Int) :=
            Int.emod_lt_of_pos _ (by omega)
          omega
        obtain ⟨i, hi, hti⟩ := List.mem_iff_getElem.mp hpin
        obtain ⟨k, hk, hki⟩ := mod_coverage tord.length _ i hs hi
        have hgetd : tord.getD
            ((((jsIndexOf tord myId + 1) % (tord.length : Int)).toNat + k) % tord.length) ""
            = p.id := by
          rw [hki, List.getD_eq_getElem?_getD, List.getElem?_eq_getElem hi, hti]
          rfl
        have hfind : players.find?
            (fun q => q.id == tord.getD
              ((((jsIndexOf tord myId + 1) % (tord.length : Int)).toNat + k) % tord.length) "")
            = some p := by
          rw [hgetd]
          exact find?_id_self_of_nodup hnodup hpmem
        exact gnvScan_none_mem players tord required tord.length _ _ _ hs hscan k hk p
          hfind hpfin
      have hall : ∀ p ∈ players, p.isFinished = false → p.hand.length < required :=
        fun p hm hf => (hallfact p hm hf).1
      by_cases hmyact : ∃ cp, players.find? (fun p => p.id == myId) = some cp ∧
          cp.isFinished = false
      · obtain ⟨cp, hcp, hcpfin⟩ := hmyact
        have hcpmem : cp ∈ players := List.mem_of_find?_eq_some hcp
        have hcpid : cp.id = myId := by simpa using List.find?_some hcp
        have hval : Route.getNextValidPlayer players myId tord required = (myId, sk) := by
          simp only [Route.getNextValidPlayer, hscan, hcp]
          rw [if_pos (by simp [hcpfin])]
        have hcpsk : cp ∈ sk := (hallfact cp hcpmem hcpfin).2
        have hsl : sk.length > 0 := List.length_pos.mpr (List.ne_nil_of_mem hcpsk)
        have hnsa : (players.filter (fun p => !p.isFinished)).filter
            (fun p => p.id == myId || ! sk.any (fun s => s.id == p.id)) = [cp] := by
          rw [List.filter_filter]
          apply filter_unique_id hnodup _ hcpmem
          · simp [hcpid, hcpfin]
          · intro p hpmem hpred
            rw [Bool.and_eq_true] at hpred
            obtain ⟨hcond, hact⟩ := hpred
            have hpfin : p.isFinished = false := by simpa using hact
            have hpsk : p ∈ sk := (hallfact p hpmem hpfin).2
            rw [Bool.or_eq_true] at hcond
            rcases hcond with hmy | hnay
            · have : p.id = myId := by simpa using hmy
              rw [this, hcpid]
            · have hany : sk.any (fun s => s.id == p.id) = true :=
                List.any_eq_true.mpr ⟨p, hpsk, by simp⟩
              rw [hany] at hnay
              simp at hnay
        have hcondtrue : (cp.id == myId &&
            ((players.find? (fun p => p.id == myId)).map (fun p => !p.isFinished)).getD false)
            = true := by
          rw [hcp]
          simp [hcpid, hcpfin]
        have hRfull : Route.advanceAfterPlay players myId tord required = (myId, true, sk) := by
          unfold Route.advanceAfterPlay
          rw [hval]
          dsimp only
          rw [if_pos hsl, hnsa]
          dsimp only
          rw [if_pos hcondtrue]
        refine ⟨?_, Or.inr (Or.inl ⟨hall, ⟨cp, hcpmem, hcpid, hcpfin⟩, ?_, ?_, ?_⟩)⟩
        · intro p hp
          rw [hRfull] at hp
          exact hskfact p hp
        · rw [hRfull]
        · rw [hRfull]
        · intro p hm hf
          rw [hRfull]
          exact (hallfact p hm hf).2
      · have hval : Route.getNextValidPlayer players myId tord required =
            ((((players.filter (fun p => !p.isFinished)).head?.map (·.id)).getD
              (tord.getD 0 "")), sk) := by
          simp only [Route.getNextValidPlayer, hscan]
          cases hcp : players.find? (fun p => p.id == myId) with
          | none => rfl
          | some cp =>
            have hcfin : cp.isFinished = true := by
              by_contra hf2
              exact hmyact ⟨cp, hcp, by simpa using hf2⟩
            dsimp only
            rw [if_neg (by simp [hcfin])]
        have hmyfin : ∀ q ∈ players, q.id = myId → q.isFinished = true := by
          intro q hq hqid2
          by_contra hf2
          apply hmyact
          refine ⟨q, ?_, by simpa using hf2⟩
          have := find?_id_self_of_nodup hnodup hq
          rwa [hqid2] at this
        have hnsa : (players.filter (fun p => !p.isFinished)).filter
            (fun p => p.id == myId || ! sk.any (fun s => s.id == p.id)) = [] := by
          rw [List.filter_filter, List.filter_eq_nil_iff]
          intro p hpmem hpred
          rw [Bool.and_eq_true] at hpred
          obtain ⟨hcond, hact⟩ := hpred
          have hpfin : p.isFinished = false := by simpa using hact
          have hpsk : p ∈ sk := (hallfact p hpmem hpfin).2
          rw [Bool.or_eq_true] at hcond
          rcases hcond with hmy | hnay
          · have hpid : p.id = myId := by simpa using hmy
            have := hmyfin p hpmem hpid
            rw [hpfin] at this
            cases this
          · have hany : sk.any (fun s => s.id == p.id) = true :=
              List.any_eq_true.mpr ⟨p, hpsk, by simp⟩
            rw [hany] at hnay
            simp at hnay
        have hRfull : Route.advanceAfterPlay players myId tord required =
            ((((players.filter (fun p => !p.isFinished)).head?.map (·.id)).getD
              (tord.getD 0 "")), false, sk) := by
          unfold Route.advanceAfterPlay
          rw [hval]
          dsimp only
          by_cases hsl : sk.length > 0
          · rw [if_pos hsl, hnsa]
          · rw [if_neg hsl]
        refine ⟨?_, Or.inr (Or.inr ⟨hall, hmyfin, ?_, ?_, ?_⟩)⟩
        · intro p hp
          rw [hRfull] at hp
          exact hskfact p hp
        · rw [hRfull]
        · rw [hRfull]
        · intro p hm hf
          rw [hRfull]
          exact (hallfact p hm hf).2

/-- Witness for the amended C2: the counterexample fixture lands in the
fallback scenario — every seat is short-handed, the finished just-played seat
does not keep the turn, the first active seat gets it, and both short seats
are recorded as auto-skips. -/
theorem C2_advance_skips_insufficient_witness :
    (∀ p ∈ Fix.c2players, p.id ∈ ["a", "b", "c"]) ∧
    (Fix.c2players.map (·.id)).Nodup ∧
    ((∀ p ∈ (Route.advanceAfterPlay Fix.c2players "a" ["a", "b", "c"] 2).2.2,
      p ∈ Fix.c2players ∧ p.isFinished = false ∧ p.hand.length < 2) ∧
    ((∃ k < (["a", "b", "c"] : List String).length,
        (Route.advanceAfterPlay Fix.c2players "a" ["a", "b", "c"] 2).1 =
          (["a", "b", "c"] : List String).getD
            ((((jsIndexOf ["a", "b", "c"] "a" + 1) %
              ((["a", "b", "c"] : List String).length : Int)).toNat + k)
              % (["a", "b", "c"] : List String).length) "" ∧
        (∃ p ∈ Fix.c2players,
          p.id = (Route.advanceAfterPlay Fix.c2players "a" ["a", "b", "c"] 2).1 ∧
          p.isFinished = false ∧ 2 ≤ p.hand.length) ∧
        (∀ j < k, ∀ p,
          Fix.c2players.find? (fun q => q.id == (["a", "b", "c"] : List String).getD
            ((((jsIndexOf ["a", "b", "c"] "a" + 1) %
              ((["a", "b", "c"] : List String).length : Int)).toNat + j)
              % (["a", "b", "c"] : List String).length) "") = some p →
          p.isFinished = false → p.hand.length < 2 ∧
            p ∈ (Route.advanceAfterPlay Fix.c2players "a" ["a", "b", "c"] 2).2.2)) ∨
      ((∀ p ∈ Fix.c2players, p.isFinished = false → p.hand.length < 2) ∧
        (∃ cp ∈ Fix.c2players, cp.id = "a" ∧ cp.isFinished = false) ∧
        (Route.advanceAfterPlay Fix.c2players "a" ["a", "b", "c"] 2).1 = "a" ∧
        (Route.advanceAfterPlay Fix.c2players "a" ["a", "b", "c"] 2).2.1 = true ∧
        (∀ p ∈ Fix.c2players, p.isFinished = false →
          p ∈ (Route.advanceAfterPlay Fix.c2players "a" ["a", "b", "c"] 2).2.2)) ∨
      ((∀ p ∈ Fix.c2players, p.isFinished = false → p.hand.length < 2) ∧
        (∀ cp ∈ Fix.c2players, cp.id = "a" → cp.isFinished = true) ∧
        (Route.advanceAfterPlay Fix.c2players "a" ["a", "b", "c"] 2).1 =
          (((Fix.c2players.filter (fun p => !p.isFinished)).head?.map (·.id)).getD
            ((["a", "b", "c"] : List String).getD 0 "")) ∧
        (Route.advanceAfterPlay Fix.c2players "a" ["a", "b", "c"] 2).2.1 = false ∧
        (∀ p ∈ Fix.c2players, p.isFinished = false →
          p ∈ (Route.advanceAfterPlay Fix.c2players "a" ["a", "b", "c"] 2).2.2)))) :=
  ⟨by decide, by decide,
    C2_advance_skips_insufficient Fix.c2players "a" ["a", "b", "c"] 2
      (by decide) (by decide)⟩

/-! ## Claim C7: turn orders per round -/

theorem gnpScan_char (players : List PlayerState) (tord : List String) :
    ∀ fuel s, s < tord.length →
      (∀ id, Route.gnpScan players tord s fuel = some id →
        ∃ k < fuel, id = tord.getD ((s + k) % tord.length) "" ∧
          Route.isActiveId players id = true ∧
          ∀ j < k,
            Route.isActiveId players (tord.getD ((s + j) % tord.length) "") = false) ∧
      (Route.gnpScan players tord s fuel = none →
        ∀ k < fuel,
          Route.isActiveId players (tord.getD ((s + k) % tord.length) "") = false) := by
  intro fuel
  induction fuel with
  | zero =>
    intro s hs
    constructor
    · intro id h
      simp [Route.gnpScan] at h
    · intro h k hk
      omega
  | succ fuel ih =>
    intro s hs
    have hlen0 : 0 < tord.length := by omega
    have hs' : (s + 1) % tord.length < tord.length := Nat.mod_lt _ hlen0
    constructor
    · intro id h
      rw [Route.gnpScan] at h
      by_cases hact : Route.isActiveId players (tord.getD s "")
      · rw [if_pos hact] at h
        refine ⟨0, by omega, ?_, ?_, ?_⟩
        · rw [Nat.add_zero, Nat.mod_eq_of_lt hs]
          exact (Option.some_inj.mp h).symm
        · rw [← Option.some_inj.mp h]
          exact hact
        · intro j hj; omega
      · rw [if_neg hact] at h
        obtain ⟨k, hk, hid, hactid, hbefore⟩ := (ih ((s + 1) % tord.length) hs').1 id h
        refine ⟨k + 1, by omega, ?_, hactid, ?_⟩
        · rwa [Nat.mod_add_mod, show s + 1 + k = s + (k + 1) by omega] at hid
        · intro j hj
          match j with
          | 0 =>
            rw [Nat.add_zero, Nat.mod_eq_of_lt hs]
            simpa using hact
          | j + 1 =>
            have := hbefore j (by omega)
            rwa [Nat.mod_add_mod, show s + 1 + j = s + (j + 1) by omega] at this
    · intro h k hk
      rw [Route.gnpScan] at h
      by_cases hact : Route.isActiveId players (tord.getD s "")
      · rw [if_pos hact] at h
        cases h
      · rw [if_neg hact] at h
        match k with
        | 0 =>
          rw [Nat.add_zero, Nat.mod_eq_of_lt hs]
          simpa using hact
        | k + 1 =>
          have := (ih ((s + 1) % tord.length) hs').2 h k (by omega)
          rwa [Nat.mod_add_mod, show s + 1 + k = s + (k + 1) by omega] at this

/-- Claim C7: in round 1 the turn pointer advances through seats in seating
order, and in every subsequent round it advances through seats in the
previous round's finish order, so the previous round's winner leads the new
round.  Conjuncts: (1) the round-1 turn order is the seat-ordered player ids;
(2) the next-round setup installs the previous finish order as the turn
order; (3) the finish-order winner leads when seated; (4) the route's
getNextPlayer hands the turn to the first non-finished seat scanning the turn
order cyclically from the position after the current player. -/
theorem C7_turn_order :
    (∀ players : List PlayerState, Route.round1TurnOrder players = players.map (·.id)) ∧
    (∀ (players : List PlayerState) (fo : List String),
      (Route.nextRoundTurnSetup players fo).2 = fo) ∧
    (∀ (players : List PlayerState) (fo : List String),
      (∃ p ∈ players, p.id = fo.getD 0 "undefined") →
      (Route.nextRoundTurnSetup players fo).1 = some (fo.getD 0 "undefined")) ∧
    (∀ (players : List PlayerState) (cur : String) (tord : List String),
      0 < tord.length →
      (∃ i < tord.length, Route.isActiveId players (tord.getD i "") = true) →
      ∃ k < tord.length,
        Route.getNextPlayer players cur tord =
          tord.getD ((((jsIndexOf tord cur + 1) % (tord.length : Int)).toNat + k) %
            tord.length) "" ∧
        Route.isActiveId players (tord.getD
          ((((jsIndexOf tord cur + 1) % (tord.length : Int)).toNat + k) % tord.length) "")
          = true ∧
        ∀ j < k, Route.isActiveId players (tord.getD
          ((((jsIndexOf tord cur + 1) % (tord.length : Int)).toNat + j) % tord.length) "")
          = false) := by
  refine ⟨fun _ => rfl, fun _ _ => rfl, ?_, ?_⟩
  · intro players fo hex
    obtain ⟨p, hp, hpid⟩ := hex
    have hsome : (players.find? (·.id == fo.getD 0 "undefined")).isSome :=
      List.find?_isSome.mpr ⟨p, hp, by simp [hpid]⟩
    cases hq : players.find? (·.id == fo.getD 0 "undefined") with
    | none => rw [hq] at hsome; cases hsome
    | some q =>
      have hqid : q.id = fo.getD 0 "undefined" := by simpa using List.find?_some hq
      simp only [Route.nextRoundTurnSetup, hq]
      simp [hqid]
  · intro players cur tord hlen0 hex
    have hs : (((jsIndexOf tord cur + 1) % (tord.length : Int)).toNat) < tord.length := by
      have h1 : 0 ≤ (jsIndexOf tord cur + 1) % (tord.length : Int) :=
        Int.emod_nonneg _ (by omega)
      have h2 : (jsIndexOf tord cur + 1) % (tord.length : Int) < (tord.length : Int) :=
        Int.emod_lt_of_pos _ (by omega)
      omega
    cases hscan : Route.gnpScan players tord
        (((jsIndexOf tord cur + 1) % (tord.length : Int)).toNat) tord.length with
    | some id =>
      obtain ⟨k, hk, hid, hact, hbefore⟩ :=
        (gnpScan_char players tord tord.length _ hs).1 id hscan
      refine ⟨k, hk, ?_, ?_, hbefore⟩
      · have hval : Route.getNextPlayer players cur tord = id := by
          simp only [Route.getNextPlayer, hscan]
        rw [hval, hid]
      · rw [← hid]
        exact hact
    | none =>
      exfalso
      obtain ⟨i, hi, hact⟩ := hex
      obtain ⟨k, hk, hki⟩ := mod_coverage tord.length _ i hs hi
      have := (gnpScan_char players tord tord.length _ hs).2 hscan k hk
      rw [hki] at this
      rw [this] at hact
      cases hact

/-- Witness for C7: with finish order [b, a], the next-round setup hands the
lead to b. -/
theorem C7_turn_order_witness :
    (Route.nextRoundTurnSetup Fix.c2players ["b", "a"]).1 = some "b" :=
  C7_turn_order.2.2.1 Fix.c2players ["b", "a"] (by decide)

/-! ## Claim C3: caching of the last-play record (corrected) -/

theorem validatePlay_playType_eq (cards : List Card) (lp : Option PlayedCards) (tw : Bool) :
    (validatePlay cards lp tw).valid = true →
    ∃ t, getPlayType cards tw = some t ∧ (validatePlay cards lp tw).playType = some t := by
  by_cases hnil : cards.length = 0
  · intro hv
    simp [validatePlay, hnil] at hv
  · cases hgt : getPlayType cards tw with
    | none =>
      intro hv
      simp [validatePlay, hnil, hgt] at hv
    | some t =>
      refine fun hv => ⟨t, rfl, ?_⟩
      revert hv
      cases lp with
      | none => simp [validatePlay, hnil, hgt]
      | some l =>
        simp only [validatePlay, hgt]
        rw [if_neg (by simpa using hnil)]
        split_ifs <;> simp

/-- Counterexample to C3 as stated: in the fixture, seat A's single 5 of
clubs is accepted by the Validator and does not end the round, yet the
lastPlay record written by the legacy `playCards` carries no cached playType
and no cached highSuit, although the derived type is `single`. -/
theorem C3_counterexample :
    (validatePlay [Fix.c .five .clubs] Fix.c3state.lastPlay false).valid = true ∧
    (playCards Fix.c3state "A" [Fix.c .five .clubs]).status = GameStatus.PLAYING ∧
    getPlayType [Fix.c .five .clubs] false = some PlayType.single ∧
    ((playCards Fix.c3state "A" [Fix.c .five .clubs]).lastPlay.bind (·.playType)) = none ∧
    ((playCards Fix.c3state "A" [Fix.c .five .clubs]).lastPlay.bind (·.highSuit)) = none := by
  refine ⟨?_, ?_, ?_, ?_, ?_⟩ <;> decide

/-- Claim C3 (amended): the polling route's play handler caches the derived
playType and the type-specific highSuit / runHighCard / bombHighRank on the
lastPlay record it writes for an accepted play; the legacy `playCards` stores
only playerId, cards, rank and count, leaving those fields unset. -/
theorem C3_route_caches_lastPlay (cards : List Card) (lp : Option PlayedCards)
    (tw : Bool) (pid : String)
    (hv : (validatePlay cards lp tw).valid = true) :
    ∃ t, getPlayType cards tw = some t ∧ (validatePlay cards lp tw).playType = some t ∧
      (Route.makeLastPlay pid cards t tw).cards = cards ∧
      (Route.makeLastPlay pid cards t tw).count = cards.length ∧
      (Route.makeLastPlay pid cards t tw).playerId = pid ∧
      (Route.makeLastPlay pid cards t tw).playType = some t ∧
      ((t = PlayType.single ∨ t = PlayType.pair ∨ t = PlayType.triple ∨ t = PlayType.quad) →
        (Route.makeLastPlay pid cards t tw).highSuit = some (getHighestSuitInSet cards) ∧
        (Route.makeLastPlay pid cards t tw).runHighCard = none ∧
        (Route.makeLastPlay pid cards t tw).bombHighRank = none) ∧
      (t = PlayType.run →
        (Route.makeLastPlay pid cards t tw).runHighCard = some (getRunHighCard cards tw) ∧
        (Route.makeLastPlay pid cards t tw).highSuit = none ∧
        (Route.makeLastPlay pid cards t tw).bombHighRank = none) ∧
      (t = PlayType.bomb →
        (Route.makeLastPlay pid cards t tw).bombHighRank = some (getBombHighRank cards tw) ∧
        (Route.makeLastPlay pid cards t tw).highSuit = none ∧
        (Route.makeLastPlay pid cards t tw).runHighCard = none) := by
  obtain ⟨t, hgt, hpt⟩ := validatePlay_playType_eq cards lp tw hv
  refine ⟨t, hgt, hpt, rfl, rfl, rfl, rfl, ?_, ?_, ?_⟩
  · rintro (rfl | rfl | rfl | rfl) <;> refine ⟨?_, ?_, ?_⟩ <;> simp [Route.makeLastPlay]
  · rintro rfl
    refine ⟨?_, ?_, ?_⟩ <;> simp [Route.makeLastPlay]
  · rintro rfl
    refine ⟨?_, ?_, ?_⟩ <;> simp [Route.makeLastPlay]

/-- Witness for the amended C3: the route record for a single 7 of clubs led
onto an empty table. -/
theorem C3_route_caches_lastPlay_witness :
    ∃ t, getPlayType [Fix.c .seven .clubs] false = some t ∧
      (validatePlay [Fix.c .seven .clubs] none false).playType = some t ∧
      (Route.makeLastPlay "A" [Fix.c .seven .clubs] t false).cards = [Fix.c .seven .clubs] ∧
      (Route.makeLastPlay "A" [Fix.c .seven .clubs] t false).count =
        ([Fix.c .seven .clubs] : List Card).length ∧
      (Route.makeLastPlay "A" [Fix.c .seven .clubs] t false).playerId = "A" ∧
      (Route.makeLastPlay "A" [Fix.c .seven .clubs] t false).playType = some t ∧
      ((t = PlayType.single ∨ t = PlayType.pair ∨ t = PlayType.triple ∨ t = PlayType.quad) →
        (Route.makeLastPlay "A" [Fix.c .seven .clubs] t false).highSuit =
          some (getHighestSuitInSet [Fix.c .seven .clubs]) ∧
        (Route.makeLastPlay "A" [Fix.c .seven .clubs] t false).runHighCard = none ∧
        (Route.makeLastPlay "A" [Fix.c .seven .clubs] t false).bombHighRank = none) ∧
      (t = PlayType.run →
        (Route.makeLastPlay "A" [Fix.c .seven .clubs] t false).runHighCard =
          some (getRunHighCard [Fix.c .seven .clubs] false) ∧
        (Route.makeLastPlay "A" [Fix.c .seven .clubs] t false).highSuit = none ∧
        (Route.makeLastPlay "A" [Fix.c .seven .clubs] t false).bombHighRank = none) ∧
      (t = PlayType.bomb →
        (Route.makeLastPlay "A" [Fix.c .seven .clubs] t false).bombHighRank =
          some (getBombHighRank [Fix.c .seven .clubs] false) ∧
        (Route.makeLastPlay "A" [Fix.c .seven .clubs] t false).highSuit = none ∧
        (Route.makeLastPlay "A" [Fix.c .seven .clubs] t false).runHighCard = none) :=
  C3_route_caches_lastPlay [Fix.c .seven .clubs] none false "A" (by decide)

/-! ## Claim C9: trading-state invariants (corrected) -/

theorem completeTrade_parts (st : GameState) (ts : TradingState)
    (hts : st.tradingState = some ts) (f t : String) (cs : List Card) :
    (completeTrade st f t cs).settings = st.settings ∧
    (completeTrade st f t cs).finishOrder = st.finishOrder ∧
    ∃ ts', (completeTrade st f t cs).tradingState = some ts' ∧
      ts'.phase = ts.phase ∧
      (ts'.completedTrades = ts.completedTrades ∨
        ts'.completedTrades = ts.completedTrades ++ [f ++ "-" ++ t]) := by
  unfold completeTrade
  rw [hts]
  cases h1 : st.players.findIdx? (fun p => p.id == f) with
  | none =>
    exact ⟨rfl, rfl, ts, hts, rfl, Or.inl rfl⟩
  | some i =>
    cases h2 : st.players.findIdx? (fun p => p.id == t) with
    | none =>
      exact ⟨rfl, rfl, ts, hts, rfl, Or.inl rfl⟩
    | some j =>
      exact ⟨rfl, rfl, _, rfl, rfl, Or.inr rfl⟩

theorem tradeAttempt_cases (st : GameState) (uid : String) (cs : List Card)
    (ns : GameState) (h : SH.tradeAttempt st uid cs = some ns)
    (ts : TradingState) (hts : st.tradingState = some ts) :
    (ts.phase = TradePhase.peasants_give ∨ ts.phase = TradePhase.royals_give) ∧
    ∃ f t, ns = completeTrade st f t cs := by
  unfold SH.tradeAttempt at h
  by_cases hst : st.status ≠ GameStatus.TRADING
  · rw [if_pos hst] at h
    cases h
  · rw [if_neg hst, hts] at h
    cases hp : st.players.find? (fun p => p.odlerId == uid) with
    | none =>
      simp only [hp] at h
      cases h
    | some player =>
      simp only [hp] at h
      by_cases h1 : ts.phase = TradePhase.peasants_give
      · refine ⟨Or.inl h1, ?_⟩
        rw [if_pos h1] at h
        by_cases hf1 : jsIndexOf st.finishOrder player.id = (st.settings.playerCount : Int) - 1
        · rw [if_pos hf1] at h
          cases hq : st.finishOrder.get? 0 with
          | none =>
            rw [hq] at h
            simp at h
          | some tid =>
            rw [hq] at h
            simp only [Option.map_some'] at h
            by_cases hlen : cs.length ≠ 2
            · rw [if_pos hlen] at h
              cases h
            · rw [if_neg hlen] at h
              exact ⟨player.id, tid, (Option.some_inj.mp h).symm⟩
        · rw [if_neg hf1] at h
          by_cases hf2 : jsIndexOf st.finishOrder player.id = (st.settings.playerCount : Int) - 2
          · rw [if_pos hf2] at h
            cases hq : st.finishOrder.get? 1 with
            | none =>
              rw [hq] at h
              simp at h
            | some tid =>
              rw [hq] at h
              simp only [Option.map_some'] at h
              by_cases hlen : cs.length ≠ 1
              · rw [if_pos hlen] at h
                cases h
              · rw [if_neg hlen] at h
                exact ⟨player.id, tid, (Option.some_inj.mp h).symm⟩
          · rw [if_neg hf2] at h
            simp at h
      · by_cases h2 : ts.phase = TradePhase.royals_give
        · refine ⟨Or.inr h2, ?_⟩
          rw [if_neg h1, if_pos h2] at h
          by_cases hf1 : jsIndexOf st.finishOrder player.id = 0
          · rw [if_pos hf1] at h
            cases hq : st.finishOrder.get? (st.settings.playerCount - 1) with
            | none =>
              rw [hq] at h
              simp at h
            | some tid =>
              rw [hq] at h
              simp only [Option.map_some'] at h
              by_cases hlen : cs.length ≠ 2
              · rw [if_pos hlen] at h
                cases h
              · rw [if_neg hlen] at h
                exact ⟨player.id, tid, (Option.some_inj.mp h).symm⟩
          · rw [if_neg hf1] at h
            by_cases hf2 : jsIndexOf st.finishOrder player.id = 1
            · rw [if_pos hf2] at h
              cases hq : st.finishOrder.get? (st.settings.playerCount - 2) with
              | none =>
                rw [hq] at h
                simp at h
              | some tid =>
                rw [hq] at h
                simp only [Option.map_some'] at h
                by_cases hlen : cs.length ≠ 1
                · rw [if_pos hlen] at h
                  cases h
                · rw [if_neg hlen] at h
                  exact ⟨player.id, tid, (Option.some_inj.mp h).symm⟩
            · rw [if_neg hf2] at h
              simp at h
        · rw [if_neg h1, if_neg h2] at h
          simp at h

theorem getPendingTrades_empty (st2 : GameState) (ts2 : TradingState)
    (h : st2.tradingState = some ts2) (hemp : SH.getPendingTrades st2 = []) :
    (ts2.phase = TradePhase.peasants_give →
      (st2.finishOrder.getD (st2.settings.playerCount - 1) "undefined" ++ "-" ++
        st2.finishOrder.getD 0 "undefined") ∈ ts2.completedTrades ∧
      (st2.finishOrder.getD (st2.settings.playerCount - 2) "undefined" ++ "-" ++
        st2.finishOrder.getD 1 "undefined") ∈ ts2.completedTrades) ∧
    (ts2.phase = TradePhase.royals_give →
      (st2.finishOrder.getD 0 "undefined" ++ "-" ++
        st2.finishOrder.getD (st2.settings.playerCount - 1) "undefined") ∈ ts2.completedTrades ∧
      (st2.finishOrder.getD 1 "undefined" ++ "-" ++
        st2.finishOrder.getD (st2.settings.playerCount - 2) "undefined") ∈ ts2.completedTrades) := by
  simp only [SH.getPendingTrades, h] at hemp
  constructor
  · intro hph
    rw [if_pos (by simp [hph])] at hemp
    obtain ⟨h1emp, h2emp⟩ := List.append_eq_nil.mp hemp
    constructor
    · by_cases hc : ts2.completedTrades.contains
          (st2.finishOrder.getD (st2.settings.playerCount - 1) "undefined" ++ "-" ++
            st2.finishOrder.getD 0 "undefined")
      · exact List.mem_of_elem_eq_true hc
      · exfalso
        rw [if_pos (by simpa using hc)] at h1emp
        cases h1emp
    · by_cases hc : ts2.completedTrades.contains
          (st2.finishOrder.getD (st2.settings.playerCount - 2) "undefined" ++ "-" ++
            st2.finishOrder.getD 1 "undefined")
      · exact List.mem_of_elem_eq_true hc
      · exfalso
        rw [if_pos (by simpa using hc)] at h2emp
        cases h2emp
  · intro hph
    rw [if_neg (by simp [hph]), if_pos (by simp [hph])] at hemp
    obtain ⟨h1emp, h2emp⟩ := List.append_eq_nil.mp hemp
    constructor
    · by_cases hc : ts2.completedTrades.contains
          (st2.finishOrder.getD 0 "undefined" ++ "-" ++
            st2.finishOrder.getD (st2.settings.playerCount - 1) "undefined")
      · exact List.mem_of_elem_eq_true hc
      · exfalso
        rw [if_pos (by simpa using hc)] at h1emp
        cases h1emp
    · by_cases hc : ts2.completedTrades.contains
          (st2.finishOrder.getD 1 "undefined" ++ "-" ++
            st2.finishOrder.getD (st2.settings.playerCount - 2) "undefined")
      · exact List.mem_of_elem_eq_true hc
      · exfalso
        rw [if_pos (by simpa using hc)] at h2emp
        cases h2emp

/-- Counterexample to C9 as stated: in the trading fixture the last-place
seat's account repeats the select-trade action before the other peasant has
traded; the handler records the same "p4-p1" giver-receiver pair twice while
the state is still TRADING. -/
theorem C9_counterexample :
    (SH.selectTradeStep (SH.selectTradeStep Fix.c9state "up4"
        [Fix.c .three .spades, Fix.c .four .spades]) "up4"
        [Fix.c .five .spades, Fix.c .three .clubs]).status = GameStatus.TRADING ∧
    ((SH.selectTradeStep (SH.selectTradeStep Fix.c9state "up4"
        [Fix.c .three .spades, Fix.c .four .spades]) "up4"
        [Fix.c .five .spades, Fix.c .three .clubs]).tradingState.map (·.completedTrades))
      = some ["p4-p1", "p4-p1"] ∧
    (["p4-p1", "p4-p1"] : List String).count "p4-p1" = 2 := by
  refine ⟨?_, ?_, ?_⟩ <;> decide

/-- Claim C9 (amended): a giver-receiver pair can be recorded more than once
(repeating the trade action also moves cards again), but the phase
transitions are still gated: the step advances peasants_give to royals_give
only when both required peasant pairs are recorded on the traded state, and
removes tradingState (entering PLAYING) only from royals_give with both royal
pairs recorded. -/
theorem C9_phase_gating (st : GameState) (uid : String) (cards : List Card)
    (ts : TradingState) (hts : st.tradingState = some ts) :
    (ts.phase = TradePhase.peasants_give →
      (SH.selectTradeStep st uid cards).tradingState.map (·.phase)
        = some TradePhase.royals_give →
      ∃ ns ts', SH.tradeAttempt st uid cards = some ns ∧ ns.tradingState = some ts' ∧
        (st.finishOrder.getD (st.settings.playerCount - 1) "undefined" ++ "-" ++
          st.finishOrder.getD 0 "undefined") ∈ ts'.completedTrades ∧
        (st.finishOrder.getD (st.settings.playerCount - 2) "undefined" ++ "-" ++
          st.finishOrder.getD 1 "undefined") ∈ ts'.completedTrades) ∧
    ((SH.selectTradeStep st uid cards).tradingState = none →
      ts.phase = TradePhase.royals_give ∧
      ∃ ns ts', SH.tradeAttempt st uid cards = some ns ∧ ns.tradingState = some ts' ∧
        (st.finishOrder.getD 0 "undefined" ++ "-" ++
          st.finishOrder.getD (st.settings.playerCount - 1) "undefined") ∈ ts'.completedTrades ∧
        (st.finishOrder.getD 1 "undefined" ++ "-" ++
          st.finishOrder.getD (st.settings.playerCount - 2) "undefined") ∈ ts'.completedTrades) := by
  cases hatt : SH.tradeAttempt st uid cards with
  | none =>
    have hstep : SH.selectTradeStep st uid cards = st := by
      unfold SH.selectTradeStep
      rw [hatt]
    constructor
    · intro hph hmap
      rw [hstep, hts] at hmap
      simp only [Option.map_some'] at hmap
      have hph2 : ts.phase = TradePhase.royals_give := Option.some_inj.mp hmap
      rw [hph] at hph2
      cases hph2
    · intro hnone
      rw [hstep, hts] at hnone
      cases hnone
  | some ns =>
    obtain ⟨hphases, f, t, hns⟩ := tradeAttempt_cases st uid cards ns hatt ts hts
    have hparts := completeTrade_parts st ts hts f t cards
    rw [← hns] at hparts
    obtain ⟨hset, hfo, ts', hts', hphase, _⟩ := hparts
    have hstep : SH.selectTradeStep st uid cards =
        (if ((SH.getPendingTrades ns).length == 0) = true then
          (if ts'.phase = TradePhase.peasants_give then
            { ns with tradingState := some { ts' with phase := TradePhase.royals_give, completedTrades := ([] : List String) } }
          else { ns with status := GameStatus.PLAYING, tradingState := none })
        else ns) := by
      simp only [SH.selectTradeStep, hatt, hts']
    have hfo2 : ns.finishOrder = st.finishOrder := hfo
    have hset2 : ns.settings = st.settings := hset
    constructor
    · intro hph hmap
      by_cases hpend : SH.getPendingTrades ns = []
      · have hpend' : ((SH.getPendingTrades ns).length == 0) = true := by simp [hpend]
        have hph' : ts'.phase = TradePhase.peasants_give := hphase.trans hph
        have hmem := (getPendingTrades_empty ns ts' hts' hpend).1 hph'
        rw [hfo2, hset2] at hmem
        exact ⟨ns, ts', rfl, hts', hmem.1, hmem.2⟩
      · exfalso
        have hpend' : ((SH.getPendingTrades ns).length == 0) = false := by
          simpa using fun hl => hpend (List.length_eq_zero.mp hl)
        rw [hstep, hpend'] at hmap
        simp only [Bool.false_eq_true, if_false, hts', Option.map_some'] at hmap
        have : ts'.phase = TradePhase.royals_give := Option.some_inj.mp hmap
        rw [hphase, hph] at this
        cases this
    · intro hnone
      by_cases hpend : SH.getPendingTrades ns = []
      · have hpend' : ((SH.getPendingTrades ns).length == 0) = true := by simp [hpend]
        by_cases hph2 : ts'.phase = TradePhase.peasants_give
        · exfalso
          rw [hstep, hpend'] at hnone
          simp only [if_true, hph2] at hnone
          cases hnone
        · have hphr : ts.phase = TradePhase.royals_give := by
            rcases hphases with hp1 | hp2
            · exact absurd (hphase.trans hp1) hph2
            · exact hp2
          have hph3 : ts'.phase = TradePhase.royals_give := hphase.trans hphr
          have hmem := (getPendingTrades_empty ns ts' hts' hpend).2 hph3
          rw [hfo2, hset2] at hmem
          exact ⟨hphr, ns, ts', rfl, hts', hmem.1, hmem.2⟩
      · exfalso
        have hpend' : ((SH.getPendingTrades ns).length == 0) = false := by
          simpa using fun hl => hpend (List.length_eq_zero.mp hl)
        rw [hstep, hpend'] at hnone
        simp only [Bool.false_eq_true, if_false, hts'] at hnone
        cases hnone

/-- Witness for the amended C9: the second peasant's trade completes the
peasants_give phase in the fixture, and both required pairs are recorded on
the traded state. -/
theorem C9_phase_gating_witness :
    ∃ ns ts',
      SH.tradeAttempt (SH.selectTradeStep Fix.c9state "up4"
          [Fix.c .three .spades, Fix.c .four .spades]) "up3" [Fix.c .three .clubs]
        = some ns ∧
      ns.tradingState = some ts' ∧
      ((SH.selectTradeStep Fix.c9state "up4"
          [Fix.c .three .spades, Fix.c .four .spades]).finishOrder.getD
        ((SH.selectTradeStep Fix.c9state "up4"
          [Fix.c .three .spades, Fix.c .four .spades]).settings.playerCount - 1) "undefined"
        ++ "-" ++
        (SH.selectTradeStep Fix.c9state "up4"
          [Fix.c .three .spades, Fix.c .four .spades]).finishOrder.getD 0 "undefined")
        ∈ ts'.completedTrades ∧
      ((SH.selectTradeStep Fix.c9state "up4"
          [Fix.c .three .spades, Fix.c .four .spades]).finishOrder.getD
        ((SH.selectTradeStep Fix.c9state "up4"
          [Fix.c .three .spades, Fix.c .four .spades]).settings.playerCount - 2) "undefined"
        ++ "-" ++
        (SH.selectTradeStep Fix.c9state "up4"
          [Fix.c .three .spades, Fix.c .four .spades]).finishOrder.getD 1 "undefined")
        ∈ ts'.completedTrades :=
  (C9_phase_gating (SH.selectTradeStep Fix.c9state "up4"
      [Fix.c .three .spades, Fix.c .four .spades]) "up3" [Fix.c .three .clubs]
      { phase := TradePhase.peasants_give, pendingTrades := [],
        completedTrades := ["p4-p1"] }
      (by decide)).1 (by decide) (by decide)

/-! ## Claim C1: legality of the bot engine.  Helper lemmas first. -/

theorem headI_mem {α : Type} [Inhabited α] {l : List α} (h : l ≠ []) : l.headI ∈ l := by
  cases l with
  | nil => exact absurd rfl h
  | cons a t => exact List.mem_cons_self _ _

theorem head?_mem {α : Type} {l : List α} {a : α} (h : l.head? = some a) : a ∈ l := by
  cases l with
  | nil => cases h
  | cons b t =>
    rw [List.head?_cons] at h
    rw [Option.some_inj.mp h]
    exact List.mem_cons_self _ _

theorem getLast?_mem {α : Type} {l : List α} {a : α} (h : l.getLast? = some a) : a ∈ l := by
  have hx : a ∈ l.getLast? := by rw [h]; rfl
  obtain ⟨hne, heq⟩ := List.mem_getLast?_eq_getLast hx
  rw [heq]
  exact List.getLast_mem hne

theorem insertionSort_ne_nil {α : Type} {r : α → α → Prop} [DecidableRel r] {l : List α}
    (h : l ≠ []) : l.insertionSort r ≠ [] := by
  intro he
  apply h
  have := (List.perm_insertionSort r l).length_eq
  rw [he] at this
  exact List.length_eq_zero.mp this.symm

theorem mem_dedupFirst {α : Type} [DecidableEq α] {l : List α} {a : α} :
    a ∈ dedupFirst l ↔ a ∈ l := by
  induction l with
  | nil => simp [dedupFirst]
  | cons b t ih =>
    simp only [dedupFirst, List.mem_cons, List.mem_filter]
    constructor
    · rintro (rfl | ⟨h1, _⟩)
      · exact Or.inl rfl
      · exact Or.inr (ih.mp h1)
    · rintro (rfl | h)
      · exact Or.inl rfl
      · by_cases hab : a = b
        · exact Or.inl hab
        · exact Or.inr ⟨ih.mpr h, by simpa using hab⟩

theorem getD_mem {α : Type} {l : List α} {i : Nat} {d : α} (h : i < l.length) :
    l.getD i d ∈ l := by
  rw [List.getD_eq_getElem?_getD, List.getElem?_eq_getElem h]
  exact List.getElem_mem _

theorem mem_byRankGroups {hand : List Card} {g : List Card}
    (hg : g ∈ Bot.byRankGroups hand) :
    ∃ r, g = (hand.filter (·.rank == r)).insertionSort
      (fun a b => SUIT_VALUES a.suit ≤ SUIT_VALUES b.suit) := by
  unfold Bot.byRankGroups at hg
  obtain ⟨r, _, hr⟩ := List.mem_map.mp hg
  exact ⟨r, hr.symm⟩

theorem sameRankPlays_spec {hand : List Card} {tw : Bool} {n : Nat} {p : List Card}
    (hp : p ∈ Bot.sameRankPlays hand tw n) :
    (∀ c ∈ p, c ∈ hand) ∧ p.length = n ∧ ∃ r, ∀ c ∈ p, c.rank = r := by
  unfold Bot.sameRankPlays Bot.sortPlaysByRank at hp
  rw [List.mem_insertionSort] at hp
  obtain ⟨g, hg, hgp⟩ := List.mem_filterMap.mp hp
  by_cases hlen : g.length ≥ n
  · rw [if_pos hlen] at hgp
    have hpg : p = g.take n := (Option.some_inj.mp hgp).symm
    obtain ⟨r, hr⟩ := mem_byRankGroups hg
    have hsub : ∀ c ∈ p, c ∈ hand ∧ c.rank = r := by
      intro c hc
      rw [hpg] at hc
      have hcg : c ∈ g := List.take_subset n g hc
      rw [hr, List.mem_insertionSort, List.mem_filter] at hcg
      exact ⟨hcg.1, by simpa using hcg.2⟩
    refine ⟨fun c hc => (hsub c hc).1, ?_, r, fun c hc => (hsub c hc).2⟩
    rw [hpg, List.length_take]
    omega
  · rw [if_neg hlen] at hgp
    cases hgp

theorem getPlayType_sameRank {p : List Card} {tw : Bool} {n : Nat} {r : Rank}
    (hlen : p.length = n) (h1 : 1 ≤ n) (h4 : n ≤ 4) (hr : ∀ c ∈ p, c.rank = r) :
    (getPlayType p tw).isSome := by
  cases p with
  | nil => simp at hlen; omega
  | cons first rest =>
    have hall : (first :: rest).all (fun card => card.rank == first.rank) = true := by
      rw [List.all_eq_true]
      intro c hc
      have hc1 := hr c hc
      have hc2 := hr first (List.mem_cons_self _ _)
      simp [hc1, hc2]
    have hne6 : ((first :: rest).length == 6) = false := by
      simp only [beq_eq_false_iff_ne, ne_eq]
      omega
    interval_cases n <;>
      simp only [getPlayType, hne6, Bool.false_and, Bool.false_eq_true, if_false, hall,
        if_true] <;>
      rw [hlen] <;> simp

theorem validatePlay_lead {cards : List Card} {tw : Bool}
    (h : (getPlayType cards tw).isSome) :
    (validatePlay cards none tw).valid = true := by
  obtain ⟨t, ht⟩ := Option.isSome_iff_exists.mp h
  have hne : cards ≠ [] := getPlayType_ne_nil ht
  simp [validatePlay, ht, hne]

theorem bomb_beats_nonbomb {cards : List Card} {lp : PlayedCards} {tw : Bool}
    (hb : getPlayType cards tw = some PlayType.bomb)
    (hlp : lp.playType ≠ some PlayType.bomb) :
    (validatePlay cards (some lp) tw).valid = true := by
  have hne : cards ≠ [] := getPlayType_ne_nil hb
  simp [validatePlay, hb, hne, hlp]

theorem bomb_beats_bomb {cards : List Card} {lp : PlayedCards} {tw : Bool}
    (hb : getPlayType cards tw = some PlayType.bomb)
    (hlp : lp.playType = some PlayType.bomb)
    (hcmp : lp.bombHighRank.getD 0 < getBombHighRank cards tw) :
    (validatePlay cards (some lp) tw).valid = true := by
  have hne : cards ≠ [] := getPlayType_ne_nil hb
  simp [validatePlay, hb, hne, hlp, hcmp]

theorem dedupFirst_eq_self {α : Type} [DecidableEq α] {l : List α} (h : l.Nodup) :
    dedupFirst l = l := by
  induction l with
  | nil => rfl
  | cons a t ih =>
    rw [List.nodup_cons] at h
    simp only [dedupFirst, ih h.2]
    congr 1
    apply List.filter_eq_self.mpr
    intro x hx
    have : x ≠ a := fun he => h.1 (he ▸ hx)
    simpa using this

theorem consecCheck_range' (n : Nat) : ∀ v0, consecCheck (List.range' v0 n) = true := by
  induction n with
  | zero => intro v0; rfl
  | succ n ih =>
    intro v0
    rw [List.range'_succ]
    cases n with
    | zero => rfl
    | succ m =>
      have h2 := ih (v0 + 1)
      rw [List.range'_succ] at h2
      rw [List.range'_succ]
      simp only [consecCheck, beq_self_eq_true, Bool.true_and]
      rw [← List.range'_succ]
      exact h2

theorem sorted_range' (s n : Nat) : (List.range' s n).Sorted (· ≤ ·) :=
  (List.pairwise_lt_range' s n 1 (by omega)).imp (fun h => Nat.le_of_lt h)

theorem nodup_range' (s n : Nat) : (List.range' s n).Nodup :=
  (List.pairwise_lt_range' s n 1 (by omega)).imp (fun h => Nat.ne_of_lt h)

theorem mem_valuesIn {hand : List Card} {tw : Bool} {v : Nat}
    (h : v ∈ Bot.valuesIn hand tw) : ∃ c ∈ hand, getCardValue c.rank tw = v := by
  unfold Bot.valuesIn at h
  rw [List.mem_insertionSort, mem_dedupFirst] at h
  obtain ⟨c, hc, hv⟩ := List.mem_map.mp h
  exact ⟨c, hc, hv⟩

theorem valueGroup_headI {hand : List Card} {tw : Bool} {v : Nat}
    (h : v ∈ Bot.valuesIn hand tw) :
    (Bot.valueGroup hand tw v).headI ∈ hand ∧
      getCardValue (Bot.valueGroup hand tw v).headI.rank tw = v := by
  obtain ⟨c, hc, hv⟩ := mem_valuesIn h
  have hfil : c ∈ hand.filter (fun c => getCardValue c.rank tw == v) := by
    rw [List.mem_filter]
    exact ⟨hc, by simp [hv]⟩
  have hne : Bot.valueGroup hand tw v ≠ [] :=
    insertionSort_ne_nil (List.ne_nil_of_mem hfil)
  have hmem : (Bot.valueGroup hand tw v).headI ∈ Bot.valueGroup hand tw v := headI_mem hne
  unfold Bot.valueGroup at hmem
  rw [List.mem_insertionSort, List.mem_filter] at hmem
  exact ⟨hmem.1, by simpa using hmem.2⟩

theorem buildRun_values {hand : List Card} {tw : Bool} {s len : Nat}
    (hcons : Bot.consecAt (Bot.valuesIn hand tw) s len = true)
    (hsl : s + len ≤ (Bot.valuesIn hand tw).length) :
    (∀ c ∈ Bot.buildRun hand tw (Bot.valuesIn hand tw) s len, c ∈ hand) ∧
    (Bot.buildRun hand tw (Bot.valuesIn hand tw) s len).map
        (fun c => getCardValue c.rank tw) =
      List.range' ((Bot.valuesIn hand tw).getD s 0) len ∧
    (Bot.buildRun hand tw (Bot.valuesIn hand tw) s len).length = len := by
  have hstep : ∀ i < len, (Bot.valuesIn hand tw).getD (s + i) 0 =
      (Bot.valuesIn hand tw).getD s 0 + i := by
    intro i hi
    unfold Bot.consecAt at hcons
    rw [List.all_eq_true] at hcons
    have := hcons i (List.mem_range.mpr hi)
    simpa using this
  have hvmem : ∀ i < len, (Bot.valuesIn hand tw).getD (s + i) 0 ∈ Bot.valuesIn hand tw := by
    intro i hi
    exact getD_mem (by omega)
  constructor
  · intro c hc
    unfold Bot.buildRun at hc
    obtain ⟨i, hi, hci⟩ := List.mem_map.mp hc
    rw [List.mem_range] at hi
    rw [← hci]
    exact (valueGroup_headI (hvmem i hi)).1
  constructor
  · unfold Bot.buildRun
    rw [List.map_map, List.range'_eq_map_range]
    apply List.map_eq_map_iff.mpr
    intro i hi
    rw [List.mem_range] at hi
    have h1 := (valueGroup_headI (hvmem i hi)).2
    simp only [Function.comp_apply]
    rw [h1, hstep i hi]
  · unfold Bot.buildRun
    rw [List.length_map, List.length_range]

theorem findAllRuns_spec {hand : List Card} {tw : Bool} {p : List Card}
    (hp : p ∈ Bot.findAllRuns hand tw) :
    (∀ c ∈ p, c ∈ hand) ∧ getPlayType p tw = some PlayType.run := by
  unfold Bot.findAllRuns at hp
  rw [List.mem_insertionSort] at hp
  obtain ⟨s, hs, hp2⟩ := List.exists_of_mem_flatMap hp
  rw [List.mem_range] at hs
  obtain ⟨len, hlenmem, hcond⟩ := List.mem_filterMap.mp hp2
  rw [List.mem_range'_1] at hlenmem
  obtain ⟨hlen3, hlenub⟩ := hlenmem
  have hsl : s + len ≤ (Bot.valuesIn hand tw).length := by omega
  by_cases hcons : Bot.consecAt (Bot.valuesIn hand tw) s len = true
  · rw [if_pos hcons] at hcond
    have hpb : p = Bot.buildRun hand tw (Bot.valuesIn hand tw) s len :=
      (Option.some_inj.mp hcond).symm
    obtain ⟨hmem, hvals, hplen⟩ := buildRun_values hcons hsl
    rw [← hpb] at hmem hvals hplen
    refine ⟨hmem, ?_⟩
    -- p has at least three cards
    have hlen : p.length = len := hplen
    -- value facts
    set v0 := (Bot.valuesIn hand tw).getD s 0 with hv0
    have hnodupv : (p.map (fun c => getCardValue c.rank tw)).Nodup := by
      rw [hvals]
      exact nodup_range' _ _
    have hnodupr : (p.map (·.rank)).Nodup := by
      apply List.Nodup.of_map (fun r => getCardValue r tw)
      rw [List.map_map]
      exact hnodupv
    obtain ⟨c0, c1, rest, hpe⟩ : ∃ c0 c1 rest, p = c0 :: c1 :: rest := by
      cases p with
      | nil => simp at hlen; omega
      | cons c0 t =>
        cases t with
        | nil => simp at hlen; omega
        | cons c1 rest => exact ⟨c0, c1, rest, rfl⟩
    subst hpe
    · have hval0 : getCardValue c0.rank tw = v0 := by
        have := congrArg (fun l => l.headI) hvals
        simp only [List.map_cons, List.headI] at this
        cases len with
        | zero => omega
        | succ m => rw [List.range'_succ] at this; simpa using this
      have hval1 : getCardValue c1.rank tw = v0 + 1 := by
        have := congrArg (fun l => l.getD 1 0) hvals
        simp only [List.map_cons] at this
        match len, hlen3, this with
        | m + 3, _, this =>
          rw [List.range'_succ, List.range'_succ] at this
          simpa using this
      have hranks : c1.rank ≠ c0.rank := by
        intro he
        rw [he] at hval1
        omega
      have hall : ((c0 :: c1 :: rest).all (fun card => card.rank == c0.rank)) = false := by
        rw [List.all_eq_false]
        exact ⟨c1, by simp, by simpa using hranks⟩
      have hrun : isValidRun (c0 :: c1 :: rest) tw = true := by
        unfold isValidRun
        rw [if_neg (by omega)]
        have hsorted : ((c0 :: c1 :: rest).map (fun c => getCardValue c.rank tw)).Sorted
            (· ≤ ·) := by
          rw [hvals]
          exact sorted_range' _ _
        rw [List.Sorted.insertionSort_eq hsorted, hvals]
        exact consecCheck_range' _ _
      have hbombcheck : (((c0 :: c1 :: rest).length == 6) &&
          isValidBomb (c0 :: c1 :: rest) tw) = false := by
        by_cases hlen6 : (c0 :: c1 :: rest).length = 6
        · have hbomb : isValidBomb (c0 :: c1 :: rest) tw = false := by
            unfold isValidBomb
            rw [if_neg (by omega)]
            have hded : dedupFirst ((c0 :: c1 :: rest).map (·.rank)) =
                (c0 :: c1 :: rest).map (·.rank) := dedupFirst_eq_self hnodupr
            rw [if_pos ?_]
            rw [hded, List.length_map, hlen6]
            omega
          rw [hbomb, Bool.and_false]
        · have : ((c0 :: c1 :: rest).length == 6) = false := by simpa using hlen6
          rw [this, Bool.false_and]
      show getPlayType (c0 :: c1 :: rest) tw = some PlayType.run
      have hcond3 : (decide ((c0 :: c1 :: rest).length ≥ 3) &&
          isValidRun (c0 :: c1 :: rest) tw) = true := by
        rw [hrun, Bool.and_true]
        simp only [decide_eq_true_eq]
        omega
      unfold getPlayType
      rw [hbombcheck]
      simp only [Bool.false_eq_true, if_false, hall]
      rw [if_pos hcond3]
  · rw [if_neg hcons] at hcond
    cases hcond

theorem exists_pair_of_len2 {α : Type} {l : List α} (h : l.length = 2) :
    ∃ x y, l = [x, y] := by
  match l, h with
  | [x, y], _ => exact ⟨x, y, rfl⟩

theorem ranksWithPairs_spec {hand : List Card} {tw : Bool} {bp : Bot.BombPair}
    (h : bp ∈ Bot.ranksWithPairs hand tw) :
    bp.value = getCardValue bp.rank tw ∧ bp.cards.length = 2 ∧
      ∀ c ∈ bp.cards, c ∈ hand ∧ c.rank = bp.rank := by
  unfold Bot.ranksWithPairs at h
  rw [List.mem_insertionSort] at h
  obtain ⟨r, hrm, hbp0⟩ := List.mem_filterMap.mp h
  have hbp : (if (hand.filter (·.rank == r)).length ≥ 2 then
      some (⟨r, getCardValue r tw, (hand.filter (·.rank == r)).take 2⟩ : Bot.BombPair)
    else none) = some bp := hbp0
  by_cases hl : (hand.filter (·.rank == r)).length ≥ 2
  · rw [if_pos hl] at hbp
    obtain rfl := Option.some_inj.mp hbp
    refine ⟨rfl, ?_, ?_⟩
    · rw [List.length_take]
      omega
    · intro c hc
      have hcf : c ∈ hand.filter (·.rank == r) := List.take_subset _ _ hc
      rw [List.mem_filter] at hcf
      exact ⟨hcf.1, by simpa using hcf.2⟩
  · rw [if_neg hl] at hbp
    cases hbp

theorem isValidBomb_pairs {tw : Bool} {ra rb rc : Rank} {x1 x2 y1 y2 z1 z2 : Card}
    (hx1 : x1.rank = ra) (hx2 : x2.rank = ra)
    (hy1 : y1.rank = rb) (hy2 : y2.rank = rb)
    (hz1 : z1.rank = rc) (hz2 : z2.rank = rc)
    (hvb : getCardValue rb tw = getCardValue ra tw + 1)
    (hvc : getCardValue rc tw = getCardValue ra tw + 2) :
    isValidBomb [x1, x2, y1, y2, z1, z2] tw = true := by
  have hab : ra ≠ rb := fun he => by rw [he] at hvb; omega
  have hac : ra ≠ rc := fun he => by rw [he] at hvc; omega
  have hbc : rb ≠ rc := fun he => by rw [← he] at hvc; omega
  have hmap : [x1, x2, y1, y2, z1, z2].map (·.rank) = [ra, ra, rb, rb, rc, rc] := by
    simp [hx1, hx2, hy1, hy2, hz1, hz2]
  have hded : dedupFirst [ra, ra, rb, rb, rc, rc] = [ra, rb, rc] := by
    simp [dedupFirst, hab, hac, hbc, Ne.symm hab, Ne.symm hac, Ne.symm hbc]
  have h211 : getCardValue ra tw + 1 + 1 = getCardValue ra tw + 2 := by omega
  have hsort : ([getCardValue ra tw, getCardValue ra tw + 1,
      getCardValue ra tw + 2] : List Nat).insertionSort (· ≤ ·) =
      [getCardValue ra tw, getCardValue ra tw + 1, getCardValue ra tw + 2] :=
    List.Sorted.insertionSort_eq (by simp [List.sorted_cons])
  simp only [isValidBomb, hmap, hded]
  simp [hvb, hvc, h211, hsort, hx1, hx2, hy1, hy2, hz1, hz2,
    Ne.symm hab, Ne.symm hac, Ne.symm hbc, hab, hac, hbc]

theorem findAllBombs_spec {hand : List Card} {tw : Bool} {p : List Card}
    (hp : p ∈ Bot.findAllBombs hand tw) :
    (∀ c ∈ p, c ∈ hand) ∧ getPlayType p tw = some PlayType.bomb := by
  unfold Bot.findAllBombs at hp
  obtain ⟨i, hi, hf⟩ := List.mem_filterMap.mp hp
  have hmem3 : ∃ a b cc rest, (Bot.ranksWithPairs hand tw).drop i = a :: b :: cc :: rest ∧
      (if b.value == a.value + 1 && cc.value == b.value + 1 then
        some (a.cards ++ b.cards ++ cc.cards) else none) = some p := by
    rcases hd : (Bot.ranksWithPairs hand tw).drop i with _ | ⟨a, _ | ⟨b, _ | ⟨cc, rest⟩⟩⟩ <;>
      rw [hd] at hf
    · simp at hf
    · simp at hf
    · simp at hf
    · exact ⟨a, b, cc, rest, rfl, hf⟩
  obtain ⟨a, b, cc, rest, hd, hif⟩ := hmem3
  by_cases hcond : (b.value == a.value + 1 && cc.value == b.value + 1) = true
  · rw [if_pos hcond] at hif
    have hpe : p = a.cards ++ b.cards ++ cc.cards := (Option.some_inj.mp hif).symm
    have hsub := List.drop_subset i (Bot.ranksWithPairs hand tw)
    have hamem : a ∈ Bot.ranksWithPairs hand tw := hsub (by rw [hd]; simp)
    have hbmem : b ∈ Bot.ranksWithPairs hand tw := hsub (by rw [hd]; simp)
    have hcmem : cc ∈ Bot.ranksWithPairs hand tw := hsub (by rw [hd]; simp)
    obtain ⟨hav, halen, hacards⟩ := ranksWithPairs_spec hamem
    obtain ⟨hbv, hblen, hbcards⟩ := ranksWithPairs_spec hbmem
    obtain ⟨hcv, hclen, hccards⟩ := ranksWithPairs_spec hcmem
    rw [Bool.and_eq_true, beq_iff_eq, beq_iff_eq] at hcond
    obtain ⟨x1, x2, hax⟩ := exists_pair_of_len2 halen
    obtain ⟨y1, y2, hbx⟩ := exists_pair_of_len2 hblen
    obtain ⟨z1, z2, hcx⟩ := exists_pair_of_len2 hclen
    have hpl : p = [x1, x2, y1, y2, z1, z2] := by
      rw [hpe, hax, hbx, hcx]; rfl
    constructor
    · intro c hc
      rw [hpe] at hc
      simp only [List.mem_append] at hc
      rcases hc with (hc | hc) | hc
      · exact (hacards c hc).1
      · exact (hbcards c hc).1
      · exact (hccards c hc).1
    · have hvb : getCardValue b.rank tw = getCardValue a.rank tw + 1 := by
        rw [← hav, ← hbv]; omega
      have hvc : getCardValue cc.rank tw = getCardValue a.rank tw + 2 := by
        rw [← hav, ← hcv]; omega
      have hbomb : isValidBomb [x1, x2, y1, y2, z1, z2] tw = true :=
        isValidBomb_pairs
          (hacards x1 (by rw [hax]; simp)).2 (hacards x2 (by rw [hax]; simp)).2
          (hbcards y1 (by rw [hbx]; simp)).2 (hbcards y2 (by rw [hbx]; simp)).2
          (hccards z1 (by rw [hcx]; simp)).2 (hccards z2 (by rw [hcx]; simp)).2
          hvb hvc
      rw [hpl]
      simp [getPlayType, hbomb]
  · rw [if_neg hcond] at hif
    cases hif

theorem getPlayType_singleton (c : Card) (tw : Bool) :
    getPlayType [c] tw = some PlayType.single := by
  simp [getPlayType]

theorem exists_singleton_of_len1 {α : Type} {l : List α} (h : l.length = 1) :
    ∃ x, l = [x] := by
  match l, h with
  | [x], _ => exact ⟨x, rfl⟩

theorem lead_from_sameRank {hand : List Card} {tw : Bool} {n : Nat} {p : List Card}
    (hp : p ∈ Bot.sameRankPlays hand tw n) (h1 : 1 ≤ n) (h4 : n ≤ 4) :
    (∀ c ∈ p, c ∈ hand) ∧ (getPlayType p tw).isSome := by
  obtain ⟨hm, hlen, r, hr⟩ := sameRankPlays_spec hp
  exact ⟨hm, getPlayType_sameRank hlen h1 h4 hr⟩

theorem lead_from_runs {hand : List Card} {tw : Bool} {p : List Card}
    (hp : p ∈ Bot.findAllRuns hand tw) :
    (∀ c ∈ p, c ∈ hand) ∧ (getPlayType p tw).isSome :=
  ⟨(findAllRuns_spec hp).1, by rw [(findAllRuns_spec hp).2]; rfl⟩

theorem lead_from_bombs {hand : List Card} {tw : Bool} {p : List Card}
    (hp : p ∈ Bot.findAllBombs hand tw) :
    (∀ c ∈ p, c ∈ hand) ∧ (getPlayType p tw).isSome :=
  ⟨(findAllBombs_spec hp).1, by rw [(findAllBombs_spec hp).2]; rfl⟩

theorem lead_from_single {hand : List Card} {tw : Bool} {c : Card} (hc : c ∈ hand) :
    (∀ x ∈ [c], x ∈ hand) ∧ (getPlayType [c] tw).isSome :=
  ⟨by simpa using hc, by rw [getPlayType_singleton]; rfl⟩

theorem planExitPlay_spec {hand : List Card} {tw : Bool} (hne : hand ≠ []) :
    (∀ c ∈ Bot.planExitPlay hand (Bot.analyzeHand hand tw) tw, c ∈ hand) ∧
      (getPlayType (Bot.planExitPlay hand (Bot.analyzeHand hand tw) tw) tw).isSome := by
  unfold Bot.planExitPlay
  by_cases h1 : (Bot.analyzeHand hand tw).bombs.length > 0 ∧ hand.length = 6
  · rw [if_pos h1]
    have hne' : (Bot.analyzeHand hand tw).bombs ≠ [] := by
      intro he; rw [he] at h1; simp at h1
    exact lead_from_bombs (by simpa [Bot.analyzeHand] using headI_mem hne')
  · rw [if_neg h1]
    by_cases h2 : (Bot.analyzeHand hand tw).quads.length > 0 ∧ hand.length = 4
    · rw [if_pos h2]
      have hne' : (Bot.analyzeHand hand tw).quads ≠ [] := by
        intro he; rw [he] at h2; simp at h2
      exact lead_from_sameRank (p := (Bot.analyzeHand hand tw).quads.headI)
        (by simpa [Bot.analyzeHand] using headI_mem hne') (by omega) (by omega)
    · rw [if_neg h2]
      by_cases h3 : (Bot.analyzeHand hand tw).triples.length > 0 ∧ hand.length = 3
      · rw [if_pos h3]
        have hne' : (Bot.analyzeHand hand tw).triples ≠ [] := by
          intro he; rw [he] at h3; simp at h3
        exact lead_from_sameRank (p := (Bot.analyzeHand hand tw).triples.headI)
          (by simpa [Bot.analyzeHand] using headI_mem hne') (by omega) (by omega)
      · rw [if_neg h3]
        by_cases h4 : (Bot.analyzeHand hand tw).pairs.length > 0 ∧ hand.length = 2
        · rw [if_pos h4]
          have hne' : (Bot.analyzeHand hand tw).pairs ≠ [] := by
            intro he; rw [he] at h4; simp at h4
          exact lead_from_sameRank (p := (Bot.analyzeHand hand tw).pairs.headI)
            (by simpa [Bot.analyzeHand] using headI_mem hne') (by omega) (by omega)
        · rw [if_neg h4]
          by_cases h5 : hand.length = 1
          · rw [if_pos h5]
            obtain ⟨x, hx⟩ := exists_singleton_of_len1 h5
            rw [hx]
            exact lead_from_single (by simp)
          · rw [if_neg h5]
            by_cases h6 : hand.length = 3 ∧ (Bot.analyzeHand hand tw).pairs.length > 0
            · rw [if_pos h6]
              dsimp only
              have hne' : (Bot.analyzeHand hand tw).pairs ≠ [] := by
                intro he; rw [he] at h6; simp at h6
              have hpair := lead_from_sameRank (p := (Bot.analyzeHand hand tw).pairs.headI)
                (by simpa [Bot.analyzeHand] using headI_mem hne') (n := 2) (by omega) (by omega)
              cases hfind : hand.find? (fun c =>
                  ! ((Bot.analyzeHand hand tw).pairs.headI.contains c)) with
              | some single =>
                dsimp only
                by_cases h7 : getCardValue single.rank tw ≥
                    getCardValue (Bot.analyzeHand hand tw).pairs.headI.headI.rank tw
                · rw [if_pos h7]
                  exact lead_from_single (List.mem_of_find?_eq_some hfind)
                · rw [if_neg h7]
                  exact hpair
              | none => exact hpair
            · rw [if_neg h6]
              have hsne : hand.insertionSort (fun a b =>
                  getCardValue b.rank tw ≤ getCardValue a.rank tw) ≠ [] :=
                insertionSort_ne_nil hne
              have hmem : (hand.insertionSort (fun a b =>
                  getCardValue b.rank tw ≤ getCardValue a.rank tw)).headI ∈ hand := by
                have := headI_mem hsne
                rwa [List.mem_insertionSort] at this
              exact lead_from_single hmem

theorem aggressiveLead_spec {hand : List Card} {tw : Bool} (hne : hand ≠ []) :
    (∀ c ∈ Bot.aggressiveLead hand (Bot.analyzeHand hand tw), c ∈ hand) ∧
      (getPlayType (Bot.aggressiveLead hand (Bot.analyzeHand hand tw)) tw).isSome := by
  unfold Bot.aggressiveLead
  cases hq : (Bot.analyzeHand hand tw).quads.getLast? with
  | some q =>
    exact lead_from_sameRank (n := 4) (by simpa [Bot.analyzeHand] using getLast?_mem hq)
      (by omega) (by omega)
  | none =>
  cases ht : (Bot.analyzeHand hand tw).triples.getLast? with
  | some t =>
    exact lead_from_sameRank (n := 3) (by simpa [Bot.analyzeHand] using getLast?_mem ht)
      (by omega) (by omega)
  | none =>
  cases hr : (Bot.analyzeHand hand tw).runs.getLast? with
  | some r =>
    exact lead_from_runs (by simpa [Bot.analyzeHand] using getLast?_mem hr)
  | none =>
  cases hpr : (Bot.analyzeHand hand tw).pairs.getLast? with
  | some pr =>
    exact lead_from_sameRank (n := 2) (by simpa [Bot.analyzeHand] using getLast?_mem hpr)
      (by omega) (by omega)
  | none =>
  cases hsg : (Bot.analyzeHand hand tw).singles.getLast? with
  | some s =>
    exact lead_from_sameRank (n := 1) (by simpa [Bot.analyzeHand] using getLast?_mem hsg)
      (by omega) (by omega)
  | none =>
  cases hh : hand.getLast? with
  | some c0 => exact lead_from_single (getLast?_mem hh)
  | none => exact absurd (List.getLast?_eq_none_iff.mp hh) hne

theorem selectLeadPlay_spec {hand : List Card} {tw d : Bool} (hne : hand ≠ []) :
    (∀ c ∈ Bot.selectLeadPlay hand (Bot.analyzeHand hand tw) tw d, c ∈ hand) ∧
      (getPlayType (Bot.selectLeadPlay hand (Bot.analyzeHand hand tw) tw d) tw).isSome := by
  unfold Bot.selectLeadPlay
  by_cases hs : hand.length ≤ 4
  · rw [if_pos hs]
    exact planExitPlay_spec hne
  · rw [if_neg hs]
    by_cases hd : d = true
    · rw [if_pos hd]
      exact aggressiveLead_spec hne
    · rw [if_neg hd]
      cases hf1 : (Bot.analyzeHand hand tw).singles.find? (fun single =>
          Bot.rankCount hand single.headI.rank == 1 &&
            ! Bot.runRanksHas (Bot.analyzeHand hand tw).runs single.headI.rank) with
      | some single =>
        exact lead_from_sameRank (n := 1)
          (by simpa [Bot.analyzeHand] using List.mem_of_find?_eq_some hf1)
          (by omega) (by omega)
      | none =>
      cases hf2 : (Bot.analyzeHand hand tw).pairs.find? (fun pair =>
          Bot.rankCount hand pair.headI.rank == 2 &&
            ! Bot.runRanksHas (Bot.analyzeHand hand tw).runs pair.headI.rank) with
      | some pair =>
        exact lead_from_sameRank (n := 2)
          (by simpa [Bot.analyzeHand] using List.mem_of_find?_eq_some hf2)
          (by omega) (by omega)
      | none =>
      by_cases hr : (Bot.analyzeHand hand tw).runs.length > 0
      · rw [if_pos hr]
        have hrne : (Bot.analyzeHand hand tw).runs ≠ [] := by
          intro he; rw [he] at hr; simp at hr
        obtain ⟨m, hm⟩ : ∃ m, ((Bot.analyzeHand hand tw).runs.map (·.length)).min? = some m := by
          cases hml : (Bot.analyzeHand hand tw).runs.map (·.length) with
          | nil => exact absurd (List.map_eq_nil_iff.mp hml) hrne
          | cons a t0 => exact ⟨t0.foldl Min.min a, rfl⟩
        have hmm : m ∈ (Bot.analyzeHand hand tw).runs.map (·.length) :=
          List.min?_mem (fun a b => min_choice a b) hm
        obtain ⟨r0, hr0, hr0len⟩ := List.mem_map.mp hmm
        have hfil : r0 ∈ (Bot.analyzeHand hand tw).runs.filter (fun r =>
            r.length == (((Bot.analyzeHand hand tw).runs.map (·.length)).min?).getD 0) := by
          rw [List.mem_filter]
          exact ⟨hr0, by rw [hm]; simp [hr0len]⟩
        have hhd : ((Bot.analyzeHand hand tw).runs.filter (fun r =>
            r.length == (((Bot.analyzeHand hand tw).runs.map (·.length)).min?).getD 0)).headI ∈
            (Bot.analyzeHand hand tw).runs :=
          List.mem_of_mem_filter (headI_mem (List.ne_nil_of_mem hfil))
        exact lead_from_runs (by simpa [Bot.analyzeHand] using hhd)
      · rw [if_neg hr]
        cases hf3 : (Bot.analyzeHand hand tw).triples.find? (fun triple =>
            Bot.rankCount hand triple.headI.rank == 3) with
        | some triple =>
          exact lead_from_sameRank (n := 3)
            (by simpa [Bot.analyzeHand] using List.mem_of_find?_eq_some hf3)
            (by omega) (by omega)
        | none =>
        by_cases hq : (Bot.analyzeHand hand tw).quads.length > 0
        · rw [if_pos hq]
          have hne' : (Bot.analyzeHand hand tw).quads ≠ [] := by
            intro he; rw [he] at hq; simp at hq
          exact lead_from_sameRank (n := 4)
            (by simpa [Bot.analyzeHand] using headI_mem hne') (by omega) (by omega)
        · rw [if_neg hq]
          cases hh : (Bot.analyzeHand hand tw).singles.head? with
          | some s =>
            exact lead_from_sameRank (n := 1)
              (by simpa [Bot.analyzeHand] using head?_mem hh) (by omega) (by omega)
          | none =>
          cases hhc : hand.head? with
          | some c0 => exact lead_from_single (head?_mem hhc)
          | none => exact absurd (List.head?_eq_none_iff.mp hhc) hne

theorem followTail {hand : List Card} {lp : PlayedCards} {tw d : Bool}
    {l : List (List Card)} {p : List Card}
    (hc : ∀ q ∈ l, ∀ c ∈ q, c ∈ hand)
    (hlpb : (lp.playType == some PlayType.bomb) = false)
    (hp : (if (l.filter (fun cards =>
          (validatePlay cards (some lp) tw).valid)).length > 0 then
        if d = true ∧ (l.filter (fun cards =>
            (validatePlay cards (some lp) tw).valid)).length > 1 then
          some ((l.filter (fun cards => (validatePlay cards (some lp) tw).valid)).getD
            ((l.filter (fun cards =>
              (validatePlay cards (some lp) tw).valid)).length / 2) [])
        else (l.filter (fun cards => (validatePlay cards (some lp) tw).valid)).head?
      else if (Bot.analyzeHand hand tw).bombs.length > 0 then
        if d = true ∨ hand.length ≤ 6 ∨ (Bot.analyzeHand hand tw).bombs.length ≥ 2 then
          (Bot.analyzeHand hand tw).bombs.head?
        else none
      else none) = some p) :
    (∀ c ∈ p, c ∈ hand) ∧ (validatePlay p (some lp) tw).valid = true := by
  by_cases h1 : (l.filter (fun cards =>
      (validatePlay cards (some lp) tw).valid)).length > 0
  · rw [if_pos h1] at hp
    have hmem : p ∈ l.filter (fun cards => (validatePlay cards (some lp) tw).valid) := by
      by_cases h2 : d = true ∧ (l.filter (fun cards =>
          (validatePlay cards (some lp) tw).valid)).length > 1
      · rw [if_pos h2] at hp
        rw [← Option.some_inj.mp hp]
        exact getD_mem (Nat.div_lt_self h1 (by omega))
      · rw [if_neg h2] at hp
        exact head?_mem hp
    rw [List.mem_filter] at hmem
    exact ⟨hc p hmem.1, hmem.2⟩
  · rw [if_neg h1] at hp
    by_cases h3 : (Bot.analyzeHand hand tw).bombs.length > 0
    · rw [if_pos h3] at hp
      by_cases h4 : d = true ∨ hand.length ≤ 6 ∨ (Bot.analyzeHand hand tw).bombs.length ≥ 2
      · rw [if_pos h4] at hp
        have hb := findAllBombs_spec (p := p) (by simpa [Bot.analyzeHand] using head?_mem hp)
        exact ⟨hb.1, bomb_beats_nonbomb hb.2 (by simpa using hlpb)⟩
      · rw [if_neg h4] at hp
        cases hp
    · rw [if_neg h3] at hp
      cases hp

theorem selectFollowPlay_spec {hand : List Card} {lp : PlayedCards} {tw d : Bool}
    {p : List Card}
    (hp : Bot.selectFollowPlay hand lp (Bot.analyzeHand hand tw) tw d = some p) :
    (∀ c ∈ p, c ∈ hand) ∧ (validatePlay p (some lp) tw).valid = true := by
  unfold Bot.selectFollowPlay at hp
  by_cases hbomb : (lp.playType == some PlayType.bomb) = true
  · rw [if_pos hbomb] at hp
    have hmem := head?_mem hp
    rw [List.mem_filter] at hmem
    obtain ⟨hmb, hcmp⟩ := hmem
    have hb := findAllBombs_spec (p := p) (by simpa [Bot.analyzeHand] using hmb)
    refine ⟨hb.1, bomb_beats_bomb hb.2 (by simpa using hbomb) (by simpa using hcmp)⟩
  · have hbf : (lp.playType == some PlayType.bomb) = false := by
      simpa using hbomb
    rw [if_neg hbomb] at hp
    cases hlpt : lp.playType with
    | none =>
      rw [hlpt] at hp
      refine followTail (d := d) (l := []) (by simp) hbf ?_
      exact hp
    | some pt =>
      cases pt with
      | single =>
        rw [hlpt] at hp
        refine followTail (d := d) (l := (Bot.analyzeHand hand tw).singles) ?_ hbf hp
        intro q hq
        exact (lead_from_sameRank (n := 1) (by simpa [Bot.analyzeHand] using hq)
          (by omega) (by omega)).1
      | pair =>
        rw [hlpt] at hp
        refine followTail (d := d) (l := (Bot.analyzeHand hand tw).pairs) ?_ hbf hp
        intro q hq
        exact (lead_from_sameRank (n := 2) (by simpa [Bot.analyzeHand] using hq)
          (by omega) (by omega)).1
      | triple =>
        rw [hlpt] at hp
        refine followTail (d := d) (l := (Bot.analyzeHand hand tw).triples) ?_ hbf hp
        intro q hq
        exact (lead_from_sameRank (n := 3) (by simpa [Bot.analyzeHand] using hq)
          (by omega) (by omega)).1
      | quad =>
        rw [hlpt] at hp
        refine followTail (d := d) (l := (Bot.analyzeHand hand tw).quads) ?_ hbf hp
        intro q hq
        exact (lead_from_sameRank (n := 4) (by simpa [Bot.analyzeHand] using hq)
          (by omega) (by omega)).1
      | run =>
        rw [hlpt] at hp
        refine followTail (d := d) (l := (Bot.analyzeHand hand tw).runs.filter
          (fun r => r.length == lp.count)) ?_ hbf hp
        intro q hq
        exact (findAllRuns_spec (p := q)
          (by simpa [Bot.analyzeHand] using List.mem_of_mem_filter hq)).1
      | bomb =>
        rw [hlpt] at hbf
        simp at hbf

/-- C1: for every non-empty hand and every table state in which `lastPlay` is
null exactly when the bot is leading, if `getBotPlay` returns a list of cards
(rather than a pass), then every returned card is drawn from the hand and
`validatePlay` on the returned list against `lastPlay` returns valid. -/
theorem C1_bot_play_is_legal {state : Bot.BotGameState} {cards : List Card}
    (hhand : state.hand ≠ [])
    (hlead : state.isLeading = state.lastPlay.isNone)
    (hplay : Bot.getBotPlay state = some cards) :
    (∀ c ∈ cards, c ∈ state.hand) ∧
      (validatePlay cards state.lastPlay state.twosHigh).valid = true := by
  simp only [Bot.getBotPlay] at hplay
  by_cases hl : state.isLeading = true
  · rw [if_pos hl] at hplay
    have hnone : state.lastPlay = none := by
      rw [hl] at hlead
      exact Option.isNone_iff_eq_none.mp hlead.symm
    have hc := Option.some_inj.mp hplay
    have hsl := @selectLeadPlay_spec state.hand state.twosHigh
      ((state.opponents.find? (fun o => !o.isFinished && decide (o.cardCount ≤ 2))).isSome)
      hhand
    rw [hnone, ← hc]
    exact ⟨hsl.1, validatePlay_lead hsl.2⟩
  · rw [if_neg hl] at hplay
    obtain ⟨lp, hlp⟩ : ∃ lp, state.lastPlay = some lp := by
      cases hlpc : state.lastPlay with
      | some lp => exact ⟨lp, rfl⟩
      | none =>
        rw [hlpc] at hlead
        simp at hlead
        exact absurd hlead hl
    rw [hlp] at hplay
    have hplay' : Bot.selectFollowPlay state.hand lp
        (Bot.analyzeHand state.hand state.twosHigh) state.twosHigh
        ((state.opponents.find? (fun o =>
          !o.isFinished && decide (o.cardCount ≤ 2))).isSome) = some cards := hplay
    rw [hlp]
    exact selectFollowPlay_spec hplay'

/-- Witness for C1: the bot leading with the lone 3 of clubs plays it, and the
play is from the hand and validates. -/
theorem C1_bot_play_is_legal_witness :
    Fix.c1bot.hand ≠ [] ∧ Fix.c1bot.isLeading = Fix.c1bot.lastPlay.isNone ∧
    Bot.getBotPlay Fix.c1bot = some [Fix.c .three .clubs] ∧
    ((∀ c ∈ [Fix.c .three .clubs], c ∈ Fix.c1bot.hand) ∧
      (validatePlay [Fix.c .three .clubs] Fix.c1bot.lastPlay Fix.c1bot.twosHigh).valid
        = true) :=
  ⟨by decide, by decide, by decide,
    C1_bot_play_is_legal (by decide) (by decide) (by decide)⟩

end Rev
